import Mathlib

/-!
# qidian: query builders and extractors

A shallow embedding of `pkg/book/category_search.go`, `pkg/book/search.go` and
`pkg/book/book.go`.  Go strings are Lean `String`s (valid UTF-8), Go `int` is `Int`,
`uint64` is `Nat`, and a Go result pair `(T, error)` is a Lean pair `T × Option Error`.
The pieces of the Go standard library the code calls (`net/url`, `strings`, `strconv`)
are embedded next to the code that uses them.
-/

set_option autoImplicit false

namespace Qidian

/-! ## Go standard library: `strings`, `strconv` -/

/-- Go `strings.HasSuffix`. -/
def HasSuffix (s suffix : String) : Bool :=
  suffix.data.isSuffixOf s.data

/-- Go `strings.Join`: the elements separated by `sep`. -/
def Join : List String → String → String
  | [], _ => ""
  | [a], _ => a
  | a :: b :: rest, sep => a ++ sep ++ Join (b :: rest) sep

/-- Go `strconv.Itoa`, also the `%d` verb of `fmt.Sprintf`. -/
def Itoa (n : Int) : String :=
  toString n

/-! ## Go standard library: `net/url` -/

/-- The escaping modes of `net/url` that the program reaches. -/
inductive encoding where
  | encodePath
  | encodeHost
  | encodeQueryComponent
  deriving DecidableEq

/-- ASCII letters and digits, the first test of `shouldEscape`. -/
def isAlnumByte (c : Nat) : Bool :=
  ('a'.toNat ≤ c && c ≤ 'z'.toNat) || ('A'.toNat ≤ c && c ≤ 'Z'.toNat) ||
    ('0'.toNat ≤ c && c ≤ '9'.toNat)

/-- Go `net/url.shouldEscape` on one byte, for the three modes above. -/
def shouldEscape (c : Nat) (mode : encoding) : Bool :=
  if isAlnumByte c then false
  else if mode = encoding.encodeHost ∧
      c ∈ [33, 36, 38, 39, 40, 41, 42, 43, 44, 59, 61, 58, 91, 93, 60, 62, 34] then false
  else if c ∈ ['-'.toNat, '_'.toNat, '.'.toNat, '~'.toNat] then false
  else if c ∈ ['$'.toNat, '&'.toNat, '+'.toNat, ','.toNat, '/'.toNat, ':'.toNat, ';'.toNat,
      '='.toNat, '?'.toNat, '@'.toNat] then
    match mode with
    | encoding.encodePath => c = '?'.toNat
    | encoding.encodeQueryComponent => true
    | encoding.encodeHost => true
  else true

/-- The table `upperhex` of `net/url`. -/
def upperhex : List Char := "0123456789ABCDEF".data

/-- What `escape` writes for one byte. -/
def escapeByte (mode : encoding) (c : Nat) : List Char :=
  if c = ' '.toNat ∧ mode = encoding.encodeQueryComponent then ['+']
  else if shouldEscape c mode then ['%', upperhex.getD (c / 16) '0', upperhex.getD (c % 16) '0']
  else [Char.ofNat c]

/-- The bytes of a Go string. -/
def bytes (s : String) : List Nat :=
  s.data.flatMap fun c => (String.utf8EncodeChar c).map UInt8.toNat

/-- Go `net/url.escape`: every byte is kept, turned into `+`, or percent-encoded. -/
def escape (s : String) (mode : encoding) : String :=
  ⟨(bytes s).flatMap (escapeByte mode)⟩

/-- Go `net/url.QueryEscape`. -/
def QueryEscape (s : String) : String :=
  escape s encoding.encodeQueryComponent

/-- The fields of `net/url.URL` the program sets; the others keep their zero value. -/
structure NetURL where
  Scheme : String := ""
  Host : String := ""
  Path : String := ""
  RawQuery : String := ""

/-- Go `(*URL).EscapedPath` when `RawPath` is empty. -/
def NetURL.EscapedPath (u : NetURL) : String :=
  if u.Path = "*" then "*" else escape u.Path encoding.encodePath

/-- Go `(*URL).String` for a URL without opaque part, user info or fragment. -/
def NetURL.format (u : NetURL) : String :=
  let buf := if u.Scheme ≠ "" then u.Scheme ++ ":" else ""
  let buf :=
    if u.Scheme ≠ "" ∨ u.Host ≠ "" then
      let buf := if u.Host ≠ "" ∨ u.Path ≠ "" then buf ++ "//" else buf
      if u.Host ≠ "" then buf ++ escape u.Host encoding.encodeHost else buf
    else buf
  let path := u.EscapedPath
  let buf :=
    if path ≠ "" ∧ path.data.head? ≠ some '/' ∧ u.Host ≠ "" then buf ++ "/" else buf
  let buf :=
    if buf = "" ∧ ':' ∈ path.data.takeWhile (fun c => c ≠ '/') then buf ++ "./" else buf
  let buf := buf ++ path
  if u.RawQuery ≠ "" then buf ++ "?" ++ u.RawQuery else buf

/-! ## Category codes -/

/-- Go `type Category string`. -/
abbrev Category := String
/-- Go `type SubCategory string`. -/
abbrev SubCategory := String
/-- Go `type Sort string` (`Sort` is a reserved word here). -/
abbrev SortOrder := String
/-- Go `type State string`. -/
abbrev State := String
/-- Go `type Sign string`. -/
abbrev Sign := String
/-- Go `type VIP string`. -/
abbrev VIP := String
/-- Go `type Update string`. -/
abbrev Update := String
/-- Go `type Size string`. -/
abbrev Size := String

/-- The category table of the package (`Category.Site`, `SubCategory.Parent`,
`CategoryByName`, `SubCategoryByName`).  Its file is not part of the sources at hand, so the
four lookups are parameters of everything below. -/
structure Registry where
  Parent : SubCategory → Category
  Site : Category → String
  CategoryByName : String → Category
  SubCategoryByName : String → SubCategory

/-! ## `category_search.go` -/

/-- Go `type CategorySearch struct`; the field `Sort` is `SortOrder` here. -/
structure CategorySearch where
  Site : String := ""
  SortOrder : SortOrder := ""
  Page : Int := 0
  Category : Category := ""
  SubCategory : SubCategory := ""
  State : State := ""
  Tag : String := ""
  Sign : Sign := ""
  Update : Update := ""
  VIP : VIP := ""
  Size : Size := ""
  deriving DecidableEq

/-- Go `NewCategorySearch`: the zero value. -/
def NewCategorySearch : CategorySearch := {}

namespace CategorySearch

def SetPage (s : CategorySearch) (v : Int) : CategorySearch :=
  { s with Page := v }

def SetSort (s : CategorySearch) (v : Qidian.SortOrder) : CategorySearch :=
  { s with SortOrder := v }

def SetCategory (R : Registry) (s : CategorySearch) (v : Qidian.Category) : CategorySearch :=
  { s with Category := v, Site := R.Site v }

def SetSubCategory (R : Registry) (s : CategorySearch) (v : Qidian.SubCategory) :
    CategorySearch :=
  SetCategory R { s with SubCategory := v } (R.Parent v)

def SetState (s : CategorySearch) (v : Qidian.State) : CategorySearch :=
  { s with State := v }

def SetSign (s : CategorySearch) (v : Qidian.Sign) : CategorySearch :=
  { s with Sign := v }

def SetUpdate (s : CategorySearch) (v : Qidian.Update) : CategorySearch :=
  { s with Update := v }

def SetVIP (s : CategorySearch) (v : Qidian.VIP) : CategorySearch :=
  { s with VIP := v }

def SetSize (s : CategorySearch) (v : Qidian.Size) : CategorySearch :=
  { s with Size := v }

def SetTag (s : CategorySearch) (v : String) : CategorySearch :=
  { s with Tag := v }

/-- The slice `filters` at the end of `CategorySearch.URL`. -/
def filters (s : CategorySearch) : List String :=
  let filters : List String := []
  let filters := if s.Category ≠ "" then filters ++ ["chanId" ++ s.Category] else filters
  let filters := if s.SubCategory ≠ "" then filters ++ ["subCateId" ++ s.SubCategory] else filters
  let filters := if s.State ≠ "" then filters ++ ["action" ++ s.State] else filters
  let filters := if s.VIP ≠ "" then filters ++ ["vip" ++ s.VIP] else filters
  let filters := if s.Size ≠ "" then filters ++ ["size" ++ s.Size] else filters
  let filters := if s.Sign ≠ "" then filters ++ ["sign" ++ s.Sign] else filters
  let filters := if s.Update ≠ "" then filters ++ ["update" ++ s.Update] else filters
  let filters := if s.SortOrder ≠ "" then filters ++ ["orderId" ++ s.SortOrder] else filters
  let filters := if s.Tag ≠ "" then filters ++ ["tag" ++ s.Tag] else filters
  if s.Page > 1 then filters ++ ["page" ++ Itoa s.Page] else filters

/-- The value of `u.Path` when `CategorySearch.URL` returns. -/
def path (s : CategorySearch) : String :=
  let p := "all"
  let p := if s.Site ≠ "" then s.Site ++ "/" ++ p else p
  let p := if !HasSuffix p "/" then p ++ "/" else p
  let filters := s.filters
  if filters.length > 0 then p ++ (Join filters "-" ++ "/") else p

/-- Go `CategorySearch.URL`. -/
def URL (s : CategorySearch) : String :=
  NetURL.format { Scheme := "https", Host := "www.qidian.com", Path := s.path }

end CategorySearch

/-! ## `search.go`: the narrow builder -/

/-- Go `type Search struct`; the field `Sort` is `SortOrder` here. -/
structure Search where
  SortOrder : SortOrder := ""
  Page : Int := 0
  Category : Category := ""
  SubCategory : SubCategory := ""
  deriving DecidableEq

/-- Go `NewSearch`: the zero value. -/
def NewSearch : Search := {}

/-- Go `url.Values`, a map from key to values, kept as a list with one entry per key. -/
abbrev Values := List (String × List String)

/-- Go `Values.Set`: the key now maps to the single value. -/
def Values.Set (q : Values) (key value : String) : Values :=
  if q.any (fun kv => kv.1 = key) then
    q.map fun kv => if kv.1 = key then (key, [value]) else kv
  else q ++ [(key, [value])]

/-- Go orders strings by their bytes. -/
def stringLE (a b : String) : Prop := bytes a ≤ bytes b

instance : DecidableRel stringLE := fun a b => by
  unfold stringLE
  infer_instance

/-- Go `Values.Encode`: `key=value` pairs, sorted by key, both query-escaped, joined by `&`. -/
def Values.Encode (q : Values) : String :=
  let keys := (q.map Prod.fst).insertionSort stringLE
  keys.foldl (fun buf k =>
    let vs := ((q.find? fun kv => kv.1 = k).map Prod.snd).getD []
    let keyEscaped := QueryEscape k
    vs.foldl (fun buf v =>
      let buf := if buf.length > 0 then buf ++ "&" else buf
      buf ++ keyEscaped ++ "=" ++ QueryEscape v) buf) ""

namespace Search

def SetPage (s : Search) (v : Int) : Search :=
  { s with Page := v }

def SetSort (s : Search) (v : Qidian.SortOrder) : Search :=
  { s with SortOrder := v }

def SetCategory (s : Search) (v : Qidian.Category) : Search :=
  { s with Category := v }

def SetSubCategory (R : Registry) (s : Search) (v : Qidian.SubCategory) : Search :=
  { s with SubCategory := v, Category := R.Parent v }

/-- The query `q` of `excuteByAllPage` before it is encoded. -/
def query (s : Search) : Values :=
  let q : Values := []
  let q := q.Set "style" "2"
  let q := if s.Page > 1 then q.Set "page" (Itoa s.Page) else q
  let q := if s.SortOrder ≠ "" then q.Set "orderId" s.SortOrder else q
  let q := if s.Category ≠ "" then q.Set "chanId" s.Category else q
  if s.SubCategory ≠ "" then q.Set "subCateId" s.SubCategory else q

/-- The URL `excuteByAllPage` requests: `url.Parse("https://www.qidian.com/all")` with the
encoded query as `RawQuery`, printed by `u.String()`. -/
def requestURL (s : Search) : String :=
  NetURL.format
    { Scheme := "https", Host := "www.qidian.com", Path := "/all", RawQuery := s.query.Encode }

end Search

/-! ## `book.go`: the record -/

/-- Go `error` values are represented by their message. -/
abbrev Error := String

/-- Go `time.Time`; the zero value is `{}`. -/
structure Time where
  sec : Int := 0
  deriving DecidableEq

/-- Go `author.Author`, of which the code uses the fields `ID` and `Name`. -/
structure Author where
  ID : String := ""
  Name : String := ""
  deriving DecidableEq

/-- Go `type Book struct` of `book.go`.  `search.go` calls the word count `CharCount`. -/
structure Book where
  ID : String := ""
  Site : String := ""
  Title : String := ""
  Author : Author := {}
  CoverURL : String := ""
  Summary : String := ""
  Introduction : String := ""
  Category : Category := ""
  SubCategory : SubCategory := ""
  Tags : List String := []
  LastUpdated : Time := {}
  Finished : Time := {}
  WordCount : Nat := 0
  BookmarkCount : Nat := 0
  MonthTicketCount : Nat := 0
  WeekRecommendCount : Nat := 0
  MonthRecommendCount : Nat := 0
  TotalRecommendCount : Nat := 0
  deriving DecidableEq

/-- Go `Book.URL`. -/
def Book.URL (b : Book) : String :=
  "https://book.qidian.com/info/" ++ b.ID ++ "/"

/-- Go `goquery`: `EachWithBreak` calls `f` with the index and the element until `f` returns
`false`.  The variables the closure assigns are the state `σ`. -/
def EachWithBreak {α σ : Type} (f : Nat → α → σ → σ × Bool) : Nat → List α → σ → σ
  | _, [], st => st
  | i, x :: xs, st =>
    let r := f i x st
    if r.2 then EachWithBreak f (i + 1) xs r.1 else r.1

/-! ## `search.go`: the listing parse -/

/-- One `td` of the results table: its text, and the `data-bid` attribute of the anchor in
it (`""` when there is none, as `Attr` returns). -/
structure Cell where
  text : String := ""
  dataBid : String := ""
  deriving DecidableEq

/-- The results table: the texts of `thead > tr > th` and the `td` children of each
`tbody > tr`. -/
structure Table where
  columns : List String
  rows : List (List Cell)

/-- The text normalizers of the package, whose file is not part of the sources at hand:
`parseCountSelection` and `parseTime` are the names `search.go` calls, `ParseCount` and
`ParseTime` the names `book.go` calls. -/
structure Parsers where
  parseCountSelection : Cell → Nat × Option Error
  parseTime : String → Time × Option Error
  ParseCount : String → Nat × Option Error
  ParseTime : String → Time × Option Error

/-- Go `strings.Trim`: leading and trailing characters of `cutset` removed. -/
def Trim (s cutset : String) : String :=
  ⟨((s.data.dropWhile fun c => c ∈ cutset.data).reverse.dropWhile
    fun c => c ∈ cutset.data).reverse⟩

/-- The text before and after the first occurrence of `sep`, if there is one. -/
def cut (sep : List Char) : List Char → Option (List Char × List Char)
  | [] => if sep = [] then some ([], []) else none
  | c :: cs =>
    if sep.isPrefixOf (c :: cs) then some ([], (c :: cs).drop sep.length)
    else (cut sep cs).map fun r => (c :: r.1, r.2)

/-- Go `strings.SplitN(s, sep, 2)` for a non-empty `sep`. -/
def SplitN2 (s sep : String) : List String :=
  match cut sep.data s.data with
  | some r => [⟨r.1⟩, ⟨r.2⟩]
  | none => [s]

/-- The body of the closure run on each `td` (`search.go`, lines 125-180).  The state is the
record `book` and the result variable `err`. -/
def cellStep (R : Registry) (P : Parsers) (columns : List String) (i : Nat) (s : Cell)
    (st : Book × Option Error) : (Book × Option Error) × Bool :=
  let book := st.1
  let err := st.2
  if i ≥ columns.length then ((book, err), false)
  else
    let col := columns.getD i ""
    if col = "类别" then
      let parts := SplitN2 (Trim s.text "「」") "·"
      if parts.length ≠ 2 then ((book, some "unexpected category format"), false)
      else
        (({ book with
            Category := R.CategoryByName (parts.getD 0 "")
            SubCategory := R.SubCategoryByName (parts.getD 1 "") }, err), true)
    else if col = "小说书名" then
      (({ book with Title := s.text, ID := s.dataBid }, err), true)
    else if col = "小说作者" then
      (({ book with Author := { Name := s.text } }, err), true)
    else if col = "字数" then
      let r := P.parseCountSelection s
      (({ book with WordCount := r.1 }, r.2), r.2.isNone)
    else if col = "总收藏" then
      let r := P.parseCountSelection s
      (({ book with BookmarkCount := r.1 }, r.2), r.2.isNone)
    else if col = "周推荐" then
      let r := P.parseCountSelection s
      (({ book with WeekRecommendCount := r.1 }, r.2), r.2.isNone)
    else if col = "月推荐" then
      let r := P.parseCountSelection s
      (({ book with MonthRecommendCount := r.1 }, r.2), r.2.isNone)
    else if col = "总推荐" then
      let r := P.parseCountSelection s
      (({ book with TotalRecommendCount := r.1 }, r.2), r.2.isNone)
    else if col = "更新时间" then
      let r := P.parseTime s.text
      (({ book with LastUpdated := r.1 }, r.2), r.2.isNone)
    else if col = "完本时间" then
      let r := P.parseTime s.text
      (({ book with Finished := r.1 }, r.2), r.2.isNone)
    else ((book, err), true)

/-- The body of the closure run on each `tbody > tr` (`search.go`, lines 121-186).  The state
is the result variables `ret` and `err`. -/
def rowStep (R : Registry) (P : Parsers) (columns : List String) (_i : Nat) (s : List Cell)
    (st : List Book × Option Error) : (List Book × Option Error) × Bool :=
  let ret := st.1
  let r := EachWithBreak (cellStep R P columns) 0 s (({} : Book), st.2)
  let book := r.1
  let err := r.2
  if err ≠ none then ((ret, err), false)
  else ((ret ++ [book], err), true)

/-- The listing parse of `Search.excuteByAllPage` (`search.go`, lines 114-187): the pair
`(ret, err)` the function returns once the table is found. -/
def parseListing (R : Registry) (P : Parsers) (table : Table) : List Book × Option Error :=
  EachWithBreak (rowStep R P table.columns) 0 table.rows ([], none)

/-- Go `Search.excuteByAllPage`.  `get` stands for the request and the parse of the response:
given the URL it fails or yields the result of `doc.Find("table.rank-table-list")`. -/
def Search.excuteByAllPage (R : Registry) (P : Parsers)
    (get : String → Except Error (Option Table)) (s : Search) : List Book × Option Error :=
  match get s.requestURL with
  | Except.error e => ([], some e)
  | Except.ok none => ([], some "can not found result table")
  | Except.ok (some table) => parseListing R P table

/-! ## `book.go`: `Fetch` -/

/-- What the selector queries of `Fetch` find in the parsed info page. -/
structure Page where
  /-- The `doc.Html()` -/
  html : String := ""
  /-- The `content` of the first `meta[property="og:novel:book_name"]`, if it has one -/
  bookName : Option String := none
  /-- The `content` of the first `meta[property="og:novel:update_time"]`, if it has one -/
  updateTime : Option String := none
  /-- text of `a.writer` in `.book-info` -/
  writerText : String := ""
  /-- The `href` of `a.writer`, `""` when missing (`AttrOr`) -/
  writerHref : String := ""
  /-- The `href` of each `a` left in `.book-info` once the writer block is removed -/
  infoHrefs : List (Option String) := []
  /-- The `content` of `meta[property="og:image"]`, `""` when missing (`AttrOr`) -/
  ogImage : String := ""
  /-- text of each `.tag > span` of the info block and each `.tags` of the state block -/
  tagTexts : List String := []
  /-- text of `.intro` in `.book-info` -/
  introText : String := ""
  /-- The `content` of the first `meta[property="og:description"]`, if it has one -/
  description : Option String := none
  /-- for each `.intro + p > cite`, the text of its previous sibling followed by its own -/
  cites : List String := []
  /-- text of `#monthCount`, if the element exists -/
  monthCount : Option String := none

/-- The collaborators of `Fetch` outside `book.go`: the HTTP client, the HTML parser, the two
regular expressions, `util.AbsoluteURL` and `strings.TrimSpace`. -/
structure Env where
  GetHTML : String → Except Error String
  NewDocumentFromReader : String → Except Error Page
  /-- The `authorURLPattern.FindStringSubmatch`: `[]` or the match with its one group -/
  authorURLPattern : String → List String
  /-- The `categoryURLPattern.FindAllStringSubmatch`: every match with its two groups -/
  categoryURLPattern : String → List (List String)
  AbsoluteURL : String → String
  TrimSpace : String → String

/-- The loop of `strconv.ParseUint(s, 10, 64)` over the digits. -/
def parseUintLoop (s : String) : List Char → Nat → Nat × Option Error
  | [], n => (n, none)
  | c :: cs, n =>
    if ¬ ('0' ≤ c ∧ c ≤ '9') then
      (0, some ("strconv.ParseUint: parsing \x22" ++ s ++ "\x22: invalid syntax"))
    else if n ≥ (2 ^ 64 - 1) / 10 + 1 then
      (2 ^ 64 - 1, some ("strconv.ParseUint: parsing \x22" ++ s ++ "\x22: value out of range"))
    else
      let n1 := n * 10 + (c.toNat - '0'.toNat)
      if n1 > 2 ^ 64 - 1 then
        (2 ^ 64 - 1, some ("strconv.ParseUint: parsing \x22" ++ s ++ "\x22: value out of range"))
      else parseUintLoop s cs n1

/-- Go `strconv.ParseUint(s, 10, 64)`: the value and whether it fails.  The text of the error
puts the input between plain quote marks; Go writes it with `strconv.Quote`, which differs
when the input holds a quote mark, a backslash or a character that is not printable. -/
def ParseUint (s : String) : Nat × Option Error :=
  if s = "" then (0, some ("strconv.ParseUint: parsing \x22" ++ s ++ "\x22: invalid syntax"))
  else parseUintLoop s s.data 0

/-- The slice `c[:len(c)-len(suffix)]` of a string that ends in `suffix`. -/
def withoutSuffix (c suffix : String) : String :=
  ⟨c.data.take (c.data.length - suffix.data.length)⟩

/-- The body of the closure run on each `cite` (`book.go`, lines 146-165).  The state is the
record `b` and the result variable `err`. -/
def countStep (P : Parsers) (_i : Nat) (c : String) (st : Book × Option Error) :
    (Book × Option Error) × Bool :=
  let b := st.1
  let err := st.2
  if HasSuffix c "字" then
    let r := P.ParseCount (withoutSuffix c "字")
    (({ b with WordCount := r.1 }, r.2), r.2.isNone)
  else if HasSuffix c "总推荐" then
    let r := P.ParseCount (withoutSuffix c "总推荐")
    (({ b with TotalRecommendCount := r.1 }, r.2), r.2.isNone)
  else if HasSuffix c "周推荐" then
    let r := P.ParseCount (withoutSuffix c "周推荐")
    (({ b with WeekRecommendCount := r.1 }, r.2), r.2.isNone)
  else ((b, err), true)

/-- The step `// Author` of `Fetch` (`book.go`, lines 102-111). -/
def authorStep (E : Env) (doc : Page) (b : Book) : Book :=
  let b := { b with Author := { b.Author with Name := doc.writerText } }
  if doc.writerHref ≠ "" then
    let m := E.authorURLPattern doc.writerHref
    if m.length = 2 then { b with Author := { b.Author with ID := m.getD 1 "" } } else b
  else b

/-- The step `// Categories` of `Fetch` (`book.go`, lines 113-123): every match of every
link assigns both codes, so the last match stays. -/
def categoriesStep (E : Env) (doc : Page) (b : Book) : Book :=
  doc.infoHrefs.foldl (fun b href =>
    match href with
    | none => b
    | some href =>
      (E.categoryURLPattern href).foldl (fun b m =>
        { b with Category := m.getD 1 "", SubCategory := m.getD 2 "" }) b) b

/-- The step `// Tags` of `Fetch` (`book.go`, lines 128-134). -/
def tagsStep (doc : Page) (b : Book) : Book :=
  let b := { b with Tags := [] }
  doc.tagTexts.foldl (fun b t => { b with Tags := b.Tags ++ [t] }) b

/-- The part of `Fetch` after the document is parsed (`book.go`, lines 80-179): the record
as the steps assign it and the error returned, before the deferred wrappers run. -/
def extract (E : Env) (P : Parsers) (doc : Page) (b : Book) : Book × Option Error :=
  -- Title
  let b := { b with Title := doc.bookName.getD "" }
  if doc.bookName.isNone then (b, some "\x27og:novel:book_name\x27 meta tag not found")
  else
  -- LastUpdated
  match doc.updateTime with
  | none => (b, some "\x27og:novel:update_time\x27 meta tag not found")
  | some lastUpdatedText =>
  let r := P.ParseTime lastUpdatedText
  let b := { b with LastUpdated := r.1 }
  if r.2 ≠ none then (b, r.2)
  else
  let b := authorStep E doc b
  let b := categoriesStep E doc b
  -- Cover
  let b := { b with CoverURL := E.AbsoluteURL doc.ogImage }
  let b := tagsStep doc b
  -- Introduction
  let b := { b with Summary := doc.introText }
  let b := { b with Introduction := doc.description.getD "" }
  if doc.description.isNone then (b, some "\x27og:description\x27 meta tag not found")
  else
  let b := { b with Introduction := E.TrimSpace b.Introduction }
  -- Count
  let r := EachWithBreak (countStep P) 0 doc.cites (b, none)
  let b := r.1
  if r.2 ≠ none then (b, r.2)
  else
  -- MonthTicket
  match doc.monthCount with
  | some text =>
    let r := ParseUint text
    let b := { b with MonthTicketCount := r.1 }
    if r.2 ≠ none then (b, r.2) else (b, none)
  | none => (b, none)

/-- Go `(*Book).Fetch`: the record after the call and the error returned.  The two deferred
functions wrap a non-nil error, first with the document and then with the book id. -/
def Fetch (E : Env) (P : Parsers) (b : Book) : Book × Option Error :=
  let withID := fun (r : Book × Option Error) =>
    (r.1, r.2.map fun e => "qidian: (*Book\x7b\x27" ++ r.1.ID ++ "\x27\x7d).Fetch: " ++ e)
  let withDocument := fun (doc : Page) (r : Book × Option Error) =>
    (r.1, r.2.map fun e => "document=" ++ doc.html ++ ":\n" ++ e)
  withID <|
    if b.ID = "" then (b, some "empty book id")
    else
      match E.GetHTML b.URL with
      | Except.error e => (b, some e)
      | Except.ok body =>
        match E.NewDocumentFromReader body with
        | Except.error e => (b, some e)
        | Except.ok doc => withDocument doc (extract E P doc b)

/-! ## The statements of the specification -/

/-- ASCII letters and digits. -/
def isAlnum (c : Char) : Bool :=
  isAlnumByte c.toNat

/-- A string of ASCII letters and digits only. -/
def alnum (s : String) : Prop :=
  ∀ c ∈ s.data, isAlnum c = true

instance (s : String) : Decidable (alnum s) := by
  unfold alnum
  infer_instance

/-- A filter segment: the label followed by the value, absent when the value is empty. -/
def segment (label value : String) : List String :=
  if value = "" then [] else [label ++ value]

/-- The filter segments in the order the specification fixes, the page last and only when
it is above 1. -/
def CategorySearch.segments (s : CategorySearch) : List String :=
  segment "chanId" s.Category ++ segment "subCateId" s.SubCategory ++
    segment "action" s.State ++ segment "vip" s.VIP ++ segment "size" s.Size ++
    segment "sign" s.Sign ++ segment "update" s.Update ++ segment "orderId" s.SortOrder ++
    segment "tag" s.Tag ++ (if s.Page > 1 then ["page" ++ Itoa s.Page] else [])

/-- The canonical URL of the broad search as the specification writes it. -/
def CategorySearch.canonicalURL (s : CategorySearch) : String :=
  "https://www.qidian.com/" ++ (if s.Site = "" then "" else s.Site ++ "/") ++ "all/" ++
    (if s.segments = [] then "" else Join s.segments "-" ++ "/")

/-- Characters the path mode of `escape` leaves alone, as far as the broad search needs. -/
def pathSafe (c : Char) : Bool :=
  isAlnum c || c == '/' || c == '-'

/-- The characters `escape` writes for a list of characters. -/
def escapeChars (mode : encoding) (l : List Char) : List Char :=
  (l.flatMap fun c => (String.utf8EncodeChar c).map UInt8.toNat).flatMap (escapeByte mode)

/-- A call of one of the setters of `CategorySearch`, with its argument. -/
inductive CategorySearch.Call where
  | SetPage (v : Int)
  | SetSort (v : Qidian.SortOrder)
  | SetCategory (v : Qidian.Category)
  | SetSubCategory (v : Qidian.SubCategory)
  | SetState (v : Qidian.State)
  | SetSign (v : Qidian.Sign)
  | SetUpdate (v : Qidian.Update)
  | SetVIP (v : Qidian.VIP)
  | SetSize (v : Qidian.Size)
  | SetTag (v : String)
  deriving DecidableEq

/-- The builder after the call. -/
def CategorySearch.Call.apply (R : Registry) (s : CategorySearch) :
    CategorySearch.Call → CategorySearch
  | SetPage v => s.SetPage v
  | SetSort v => s.SetSort v
  | SetCategory v => s.SetCategory R v
  | SetSubCategory v => s.SetSubCategory R v
  | SetState v => s.SetState v
  | SetSign v => s.SetSign v
  | SetUpdate v => s.SetUpdate v
  | SetVIP v => s.SetVIP v
  | SetSize v => s.SetSize v
  | SetTag v => s.SetTag v

/-- Which setter a call uses. -/
def CategorySearch.Call.setter : CategorySearch.Call → Nat
  | SetPage _ => 0
  | SetSort _ => 1
  | SetCategory _ => 2
  | SetSubCategory _ => 3
  | SetState _ => 4
  | SetSign _ => 5
  | SetUpdate _ => 6
  | SetVIP _ => 7
  | SetSize _ => 8
  | SetTag _ => 9

/-- The builder after a sequence of setter calls on `NewCategorySearch()`. -/
def CategorySearch.build (R : Registry) (calls : List CategorySearch.Call) : CategorySearch :=
  calls.foldl (CategorySearch.Call.apply R) NewCategorySearch

/-- A call of one of the setters of `Search`, with its argument. -/
inductive Search.Call where
  | SetPage (v : Int)
  | SetSort (v : Qidian.SortOrder)
  | SetCategory (v : Qidian.Category)
  | SetSubCategory (v : Qidian.SubCategory)
  deriving DecidableEq

/-- The builder after the call. -/
def Search.Call.apply (R : Registry) (s : Search) : Search.Call → Search
  | SetPage v => s.SetPage v
  | SetSort v => s.SetSort v
  | SetCategory v => s.SetCategory v
  | SetSubCategory v => s.SetSubCategory R v

/-- The builder after a sequence of setter calls on `NewSearch()`. -/
def Search.build (R : Registry) (calls : List Search.Call) : Search :=
  calls.foldl (Search.Call.apply R) NewSearch

/-- Whether no call of the sequence, run on `CategorySearch` from the state `s`, is a
`SetCategory(c)` made while the sub-category is set and has another parent than `c`. -/
def CategorySearch.keepsParent (R : Registry) : CategorySearch → List CategorySearch.Call → Bool
  | _, [] => true
  | s, CategorySearch.Call.SetCategory c :: rest =>
    (s.SubCategory == "" || c == R.Parent s.SubCategory) &&
      CategorySearch.keepsParent R (s.SetCategory R c) rest
  | s, call :: rest => CategorySearch.keepsParent R (call.apply R s) rest

/-- Whether no call of the sequence, run on `Search` from the state `s`, is a
`SetCategory(c)` made while the sub-category is set and has another parent than `c`. -/
def Search.keepsParent (R : Registry) : Search → List Search.Call → Bool
  | _, [] => true
  | s, Search.Call.SetCategory c :: rest =>
    (s.SubCategory == "" || c == R.Parent s.SubCategory) &&
      Search.keepsParent R (s.SetCategory c) rest
  | s, call :: rest => Search.keepsParent R (call.apply R s) rest

/-- A query parameter: `key=` and the escaped value, absent when the value is empty. -/
def parameter (key value : String) : List String :=
  if value = "" then [] else [key ++ "=" ++ QueryEscape value]

/-- The query parameters of the narrow search in the order of their keys, as
`Values.Encode` writes them: `chanId`, `orderId`, `page`, `style`, `subCateId`. -/
def Search.parameters (s : Search) : List String :=
  parameter "chanId" s.Category ++ parameter "orderId" s.SortOrder ++
    (if s.Page > 1 then ["page=" ++ Itoa s.Page] else []) ++ ["style=2"] ++
    parameter "subCateId" s.SubCategory

/-- The labels of the columns that hold a count. -/
def countLabels : List String := ["字数", "总收藏", "周推荐", "月推荐", "总推荐"]

/-- The labels of the columns that hold a date. -/
def dateLabels : List String := ["更新时间", "完本时间"]

/-- The cell under the column label parses: a category cell splits in two on `·`, a count
cell is accepted by the count parser, a date cell by the time parser. -/
def cellParses (P : Parsers) (label : String) (cell : Cell) : Prop :=
  (label = "类别" → (SplitN2 (Trim cell.text "「」") "·").length = 2) ∧
    (label ∈ countLabels → (P.parseCountSelection cell).2 = none) ∧
    (label ∈ dateLabels → (P.parseTime cell.text).2 = none)

instance (P : Parsers) (label : String) (cell : Cell) : Decidable (cellParses P label cell) := by
  unfold cellParses
  infer_instance

/-- The record once the cell is stored in the field its column label names; a cell under
any other label is ignored. -/
def fillCell (R : Registry) (P : Parsers) (label : String) (cell : Cell) (book : Book) : Book :=
  if label = "类别" then
    { book with
      Category := R.CategoryByName ((SplitN2 (Trim cell.text "「」") "·").getD 0 "")
      SubCategory := R.SubCategoryByName ((SplitN2 (Trim cell.text "「」") "·").getD 1 "") }
  else if label = "小说书名" then { book with Title := cell.text, ID := cell.dataBid }
  else if label = "小说作者" then { book with Author := { Name := cell.text } }
  else if label = "字数" then { book with WordCount := (P.parseCountSelection cell).1 }
  else if label = "总收藏" then { book with BookmarkCount := (P.parseCountSelection cell).1 }
  else if label = "周推荐" then
    { book with WeekRecommendCount := (P.parseCountSelection cell).1 }
  else if label = "月推荐" then
    { book with MonthRecommendCount := (P.parseCountSelection cell).1 }
  else if label = "总推荐" then
    { book with TotalRecommendCount := (P.parseCountSelection cell).1 }
  else if label = "更新时间" then { book with LastUpdated := (P.parseTime cell.text).1 }
  else if label = "完本时间" then { book with Finished := (P.parseTime cell.text).1 }
  else book

/-- The record of a data row: from the zero record, each cell stored under the label at the
same position of the header. -/
def rowRecord (R : Registry) (P : Parsers) (columns : List String) (row : List Cell) : Book :=
  (columns.zip row).foldl (fun book lc => fillCell R P lc.1 lc.2 book) {}

/-- A category table to run the builders and the parses on: every sub-category has parent
`P`, every category is on the main site, names are their own codes. -/
def sampleRegistry : Registry :=
  ⟨fun _ => "P", fun _ => "", fun name => name, fun name => name⟩

/-- Text normalizers to run the parses on: a count is a string of digits, read by
`ParseUint`; every date is accepted as the zero time. -/
def sampleParsers : Parsers where
  parseCountSelection := fun cell => ParseUint cell.text
  parseTime := fun _ => ({}, none)
  ParseCount := fun text => ParseUint text
  ParseTime := fun _ => ({}, none)

/-- Collaborators to run `Fetch` on: every request answers with a body that parses into the
given page, the patterns match nothing, URLs and texts are left as they are. -/
def sampleEnv (page : Page) : Env where
  GetHTML := fun _ => Except.ok ""
  NewDocumentFromReader := fun _ => Except.ok page
  authorURLPattern := fun _ => []
  categoryURLPattern := fun _ => []
  AbsoluteURL := fun url => url
  TrimSpace := fun text => text

/-- The fields of the record no step of `Fetch` assigns. -/
def unextracted (b : Book) : String × String × Time × Nat × Nat :=
  (b.ID, b.Site, b.Finished, b.BookmarkCount, b.MonthRecommendCount)

/-- The counters `Fetch` extracts after the introduction. -/
def counters (b : Book) : Nat × Nat × Nat × Nat :=
  (b.WordCount, b.TotalRecommendCount, b.WeekRecommendCount, b.MonthTicketCount)

/-- The cell under the column label does not parse: a category cell that does not split in
two on `·`, a count cell the count parser rejects, a date cell the time parser rejects. -/
def cellFails (P : Parsers) (label : String) (cell : Cell) : Prop :=
  (label = "类别" ∧ (SplitN2 (Trim cell.text "「」") "·").length ≠ 2) ∨
    (label ∈ countLabels ∧ (P.parseCountSelection cell).2 ≠ none) ∨
    (label ∈ dateLabels ∧ (P.parseTime cell.text).2 ≠ none)

instance (P : Parsers) (label : String) (cell : Cell) : Decidable (cellFails P label cell) := by
  unfold cellFails
  infer_instance

/-! # Properties -/

/-! ## Escaping -/

theorem utf8EncodeChar_ascii (c : Char) (h : c.toNat < 128) :
    (String.utf8EncodeChar c).map UInt8.toNat = [c.toNat] := by
  have hv : c.val ≤ 0x7F := by
    rw [UInt32.le_def]
    have : c.val.toNat < 128 := h
    show c.val.val ≤ (0x7F : UInt32).val
    rw [Fin.le_def]
    show c.val.toNat ≤ 127
    omega
  unfold String.utf8EncodeChar
  simp only [hv, if_true, List.map_cons, List.map_nil]
  congr 1
  show (c.val.toUInt8).toNat = c.val.toNat
  have : c.val.toNat < 128 := h
  simp [UInt32.toUInt8, Nat.toUInt8, UInt8.toNat, UInt8.ofNat]
  omega

theorem isAlnum_lt (c : Char) (h : isAlnum c = true) : c.toNat < 128 := by
  simp [isAlnum, isAlnumByte] at h
  rcases h with h | h <;> omega

theorem pathSafe_lt (c : Char) (h : pathSafe c = true) : c.toNat < 128 := by
  simp only [pathSafe, Bool.or_eq_true, beq_iff_eq] at h
  rcases h with (h | h) | h
  · exact isAlnum_lt c h
  · subst h; decide
  · subst h; decide

theorem escapeByte_pathSafe (c : Char) (h : pathSafe c = true) :
    escapeByte encoding.encodePath c.toNat = [c] := by
  have hof : Char.ofNat c.toNat = c := Char.ofNat_toNat c
  simp only [pathSafe, Bool.or_eq_true, beq_iff_eq] at h
  rcases h with (h | h) | h
  · have h1 : isAlnumByte c.toNat = true := h
    have h2 : c.toNat ≠ 32 := by
      intro h3
      rw [h3] at h1
      exact absurd h1 (by decide)
    simp [escapeByte, shouldEscape, h1, hof]
  · subst h; decide
  · subst h; decide

theorem escape_data (s : String) (mode : encoding) :
    (escape s mode).data = escapeChars mode s.data := rfl

theorem escapeChars_append (mode : encoding) (l₁ l₂ : List Char) :
    escapeChars mode (l₁ ++ l₂) = escapeChars mode l₁ ++ escapeChars mode l₂ := by
  simp [escapeChars, List.flatMap_append]

theorem escapeChars_pathSafe (l : List Char) (h : ∀ c ∈ l, pathSafe c = true) :
    escapeChars encoding.encodePath l = l := by
  induction l with
  | nil => rfl
  | cons c cs ih =>
    have hc : pathSafe c = true := h c (List.mem_cons_self _ _)
    have hcs : ∀ d ∈ cs, pathSafe d = true := fun d hd => h d (List.mem_cons_of_mem _ hd)
    have e1 : escapeChars encoding.encodePath [c] = [c] := by
      simp [escapeChars, utf8EncodeChar_ascii c (pathSafe_lt c hc), escapeByte_pathSafe c hc]
    have : c :: cs = [c] ++ cs := rfl
    rw [this, escapeChars_append, e1, ih hcs]

theorem escape_pathSafe (s : String) (h : ∀ c ∈ s.data, pathSafe c = true) :
    escape s encoding.encodePath = s := by
  apply String.ext
  rw [escape_data, escapeChars_pathSafe _ h]

theorem escape_host : escape "www.qidian.com" encoding.encodeHost = "www.qidian.com" := by
  decide

theorem format_https (p : String) (hsafe : ∀ c ∈ p.data, pathSafe c = true)
    (hne : p ≠ "") (hhead : p.data.head? ≠ some '/') :
    NetURL.format { Scheme := "https", Host := "www.qidian.com", Path := p } =
      "https://www.qidian.com/" ++ p := by
  have hstar : p ≠ "*" := by
    intro h
    have := hsafe '*' (by rw [h]; decide)
    exact absurd this (by decide)
  simp only [NetURL.format, NetURL.EscapedPath, hstar, if_false, escape_pathSafe p hsafe,
    escape_host]
  have h1 : ("https" : String) ≠ "" := by decide
  have h2 : ("www.qidian.com" : String) ≠ "" := by decide
  have h3 : ("https" ++ ":" ++ "//" ++ "www.qidian.com" ++ "/" : String) ≠ "" := by decide
  simp [h1, h2, h3, hne, hhead]

/-! ## The broad builder -/

theorem segment_eq (label v : String) :
    segment label v = if v ≠ "" then [label ++ v] else [] := by
  by_cases h : v = "" <;> simp [segment, h]

theorem append_if_page (c : Prop) [Decidable c] (f : List String) (x : String) :
    (if c then f ++ [x] else f) = f ++ (if c then [x] else []) := by
  by_cases h : c <;> simp [h]

theorem filters_eq_segments (s : CategorySearch) : s.filters = s.segments := by
  simp only [CategorySearch.filters, append_if_page, List.nil_append]
  simp only [CategorySearch.segments, segment_eq, List.append_assoc]

theorem digitChar_alnum (k : Nat) (h : k < 10) : isAlnum (Nat.digitChar k) = true := by
  interval_cases k <;> decide

theorem toDigitsCore_alnum (fuel n : Nat) (acc : List Char)
    (hacc : ∀ c ∈ acc, isAlnum c = true) :
    ∀ c ∈ Nat.toDigitsCore 10 fuel n acc, isAlnum c = true := by
  induction fuel generalizing n acc with
  | zero => simpa [Nat.toDigitsCore] using hacc
  | succ fuel ih =>
    have hd : ∀ c ∈ Nat.digitChar (n % 10) :: acc, isAlnum c = true := by
      intro c hc
      rcases List.mem_cons.mp hc with h | h
      · rw [h]; exact digitChar_alnum _ (Nat.mod_lt _ (by decide))
      · exact hacc c h
    simp only [Nat.toDigitsCore]
    split
    · exact hd
    · exact ih _ _ hd

theorem Itoa_alnum (n : Int) (h : 0 ≤ n) : alnum (Itoa n) := by
  obtain ⟨m, rfl⟩ := Int.eq_ofNat_of_zero_le h
  show ∀ c ∈ (Nat.toDigits 10 m), isAlnum c = true
  exact toDigitsCore_alnum _ _ _ (by simp)

theorem segment_safe (label v : String) (hl : alnum label) (hv : alnum v) :
    ∀ x ∈ segment label v, alnum x := by
  intro x hx
  unfold segment at hx
  split at hx
  · simp at hx
  · simp only [List.mem_singleton] at hx
    subst hx
    intro c hc
    rw [String.data_append, List.mem_append] at hc
    rcases hc with hc | hc
    · exact hl c hc
    · exact hv c hc

theorem Join_safe (l : List String) (hl : ∀ x ∈ l, alnum x) :
    ∀ c ∈ (Join l "-").data, pathSafe c = true := by
  induction l with
  | nil => intro c hc; simp [Join] at hc
  | cons a rest ih =>
    have ha : ∀ c ∈ a.data, pathSafe c = true := by
      intro c hc
      simp [pathSafe, hl a (List.mem_cons_self _ _) c hc]
    cases rest with
    | nil => simpa [Join] using ha
    | cons b rest =>
      intro c hc
      simp only [Join, String.data_append, List.mem_append] at hc
      rcases hc with (hc | hc) | hc
      · exact ha c hc
      · have : c = '-' := by simpa using hc
        subst this; decide
      · exact ih (fun x hx => hl x (List.mem_cons_of_mem _ hx)) c hc

theorem HasSuffix_all (x : String) : HasSuffix (x ++ "/" ++ "all") "/" = false := by
  simp [HasSuffix, List.isSuffixOf, String.data_append, List.reverse_append, List.isPrefixOf]

theorem segments_alnum (s : CategorySearch)
    (hCategory : alnum s.Category) (hSubCategory : alnum s.SubCategory)
    (hState : alnum s.State) (hVIP : alnum s.VIP) (hSize : alnum s.Size)
    (hSign : alnum s.Sign) (hUpdate : alnum s.Update) (hSort : alnum s.SortOrder)
    (hTag : alnum s.Tag) : ∀ x ∈ s.segments, alnum x := by
  intro x hx
  simp only [CategorySearch.segments, List.mem_append] at hx
  rcases hx with ((((((((hx | hx) | hx) | hx) | hx) | hx) | hx) | hx) | hx) | hx
  · exact segment_safe _ _ (by decide) hCategory x hx
  · exact segment_safe _ _ (by decide) hSubCategory x hx
  · exact segment_safe _ _ (by decide) hState x hx
  · exact segment_safe _ _ (by decide) hVIP x hx
  · exact segment_safe _ _ (by decide) hSize x hx
  · exact segment_safe _ _ (by decide) hSign x hx
  · exact segment_safe _ _ (by decide) hUpdate x hx
  · exact segment_safe _ _ (by decide) hSort x hx
  · exact segment_safe _ _ (by decide) hTag x hx
  · split at hx
    · rename_i hp
      simp only [List.mem_singleton] at hx
      subst hx
      intro c hc
      rw [String.data_append, List.mem_append] at hc
      rcases hc with hc | hc
      · exact (by decide : alnum "page") c hc
      · exact Itoa_alnum s.Page (by omega) c hc
    · simp at hx

theorem path_eq (s : CategorySearch) :
    s.path = (if s.Site = "" then "" else s.Site ++ "/") ++ "all/" ++
      (if s.segments = [] then "" else Join s.segments "-" ++ "/") := by
  have hlen : (s.segments.length > 0) = ¬ (s.segments = []) := by
    cases s.segments <;> simp
  have hall : HasSuffix "all" "/" = false := by decide
  have hsfx := HasSuffix_all s.Site
  unfold CategorySearch.path
  simp only [filters_eq_segments, hlen]
  by_cases hs : s.Site = ""
  · by_cases hg : s.segments = []
    · simp only [hs, hg, hall, ne_eq, not_true_eq_false, not_false_eq_true, if_true, if_false,
        Bool.not_false]
      decide
    · simp only [hs, hg, hall, ne_eq, not_true_eq_false, not_false_eq_true, if_true, if_false,
        Bool.not_false]
      apply String.ext
      simp [String.data_append]
  · by_cases hg : s.segments = []
    · simp only [hs, hg, hsfx, ne_eq, not_true_eq_false, not_false_eq_true, if_true, if_false,
        Bool.not_false]
      apply String.ext
      simp [String.data_append]
    · simp only [hs, hg, hsfx, ne_eq, not_true_eq_false, not_false_eq_true, if_true, if_false,
        Bool.not_false]
      apply String.ext
      simp [String.data_append]

/-- C1: for a `CategorySearch` whose `Site` and filter fields hold only ASCII letters and
digits, `URL()` is `https://www.qidian.com/`, then `Site/` when `Site` is not empty, then
`all/`, then the segments `chanId`, `subCateId`, `action`, `vip`, `size`, `sign`, `update`,
`orderId`, `tag`, `page` (each only when its field is not empty, the page only when it is
above 1) joined by `-` and closed by `/` when there is at least one. -/
theorem CategorySearch.URL_eq_canonicalURL (s : CategorySearch)
    (hSite : alnum s.Site) (hCategory : alnum s.Category)
    (hSubCategory : alnum s.SubCategory) (hState : alnum s.State) (hVIP : alnum s.VIP)
    (hSize : alnum s.Size) (hSign : alnum s.Sign) (hUpdate : alnum s.Update)
    (hSort : alnum s.SortOrder) (hTag : alnum s.Tag) :
    s.URL = s.canonicalURL := by
  have hseg := segments_alnum s hCategory hSubCategory hState hVIP hSize hSign hUpdate hSort hTag
  have hsafe : ∀ c ∈ s.path.data, pathSafe c = true := by
    intro c hc
    rw [path_eq] at hc
    simp only [String.data_append, List.mem_append] at hc
    rcases hc with (hc | hc) | hc
    · split at hc
      · simp at hc
      · rw [String.data_append, List.mem_append] at hc
        rcases hc with hc | hc
        · simp [pathSafe, hSite c hc]
        · have : c = '/' := by simpa using hc
          subst this; decide
    · exact (by decide : ∀ c ∈ ("all/" : String).data, pathSafe c = true) c hc
    · split at hc
      · simp at hc
      · rw [String.data_append, List.mem_append] at hc
        rcases hc with hc | hc
        · exact Join_safe _ hseg c hc
        · have : c = '/' := by simpa using hc
          subst this; decide
  have hne : s.path ≠ "" := by
    intro h
    have := congrArg (fun t : String => t.data.length) h
    rw [path_eq] at this
    simp [String.data_append] at this
  have hhead : s.path.data.head? ≠ some '/' := by
    rw [path_eq]
    by_cases hs : s.Site = ""
    · simp [hs, String.data_append]
    · have hd : s.Site.data ≠ [] := fun h => hs (String.ext h)
      obtain ⟨c, cs, hcs⟩ := List.exists_cons_of_ne_nil hd
      have hc : isAlnum c = true := hSite c (by rw [hcs]; exact List.mem_cons_self _ _)
      simp only [hs, if_false, String.data_append, hcs, List.cons_append, List.head?_cons]
      intro h
      have : c = '/' := by simpa using h
      subst this
      exact absurd hc (by decide)
  unfold CategorySearch.URL
  rw [format_https _ hsafe hne hhead, path_eq]
  simp only [CategorySearch.canonicalURL, String.append_assoc]

/-- Witness of C1: the broad search of site `mm` with a category, a sub-category, a tag and
page 2. -/
theorem CategorySearch.URL_eq_canonicalURL_witness :
    CategorySearch.URL
        { Site := "mm", Category := "21", SubCategory := "8", Tag := "abc", Page := 2 } =
      "https://www.qidian.com/mm/all/chanId21-subCateId8-tagabc-page2/" :=
  (CategorySearch.URL_eq_canonicalURL
    { Site := "mm", Category := "21", SubCategory := "8", Tag := "abc", Page := 2 }
    (by decide) (by decide) (by decide) (by decide) (by decide) (by decide) (by decide)
    (by decide) (by decide) (by decide)).trans (by decide)

/-! ## Setters -/

/-- C3: after `SetSubCategory(v)`, on a `CategorySearch` and on a `Search` in any state, the
`SubCategory` field is `v` and the `Category` field is the parent of `v`. -/
theorem SetSubCategory_sets_parent (R : Registry) (s : CategorySearch) (t : Search)
    (v : SubCategory) :
    ((s.SetSubCategory R v).SubCategory = v ∧ (s.SetSubCategory R v).Category = R.Parent v) ∧
      ((t.SetSubCategory R v).SubCategory = v ∧ (t.SetSubCategory R v).Category = R.Parent v) :=
  ⟨⟨rfl, rfl⟩, ⟨rfl, rfl⟩⟩

theorem format_ends_with_path (u : NetURL) (hq : u.RawQuery = "") :
    ∃ buf : String, u.format = buf ++ u.EscapedPath := by
  unfold NetURL.format
  simp only [hq, ne_eq, not_true_eq_false, if_false]
  exact ⟨_, rfl⟩

/-- The URL of the builder with sub-category `0` and category `c`, for `c` one of `1`, `2`,
ends in the two segments. -/
theorem URL_of_category (site : String) (c : String) (hc : c = "1" ∨ c = "2") :
    ∃ y : List Char,
      (CategorySearch.URL { Site := site, Category := c, SubCategory := "0" }).data =
        y ++ ("chanId" ++ c ++ "-subCateId0/").data := by
  obtain ⟨buf, hbuf⟩ := format_ends_with_path
    { Scheme := "https", Host := "www.qidian.com",
      Path := CategorySearch.path { Site := site, Category := c, SubCategory := "0" } } rfl
  have hp : (CategorySearch.path { Site := site, Category := c, SubCategory := "0" }).data =
      ((if site = "" then "" else site ++ "/") ++ "all/").data ++
        ("chanId" ++ c ++ "-subCateId0/").data := by
    rw [path_eq]
    rcases hc with rfl | rfl <;>
      simp [CategorySearch.segments, segment, Join, String.data_append]
  have hstar : CategorySearch.path { Site := site, Category := c, SubCategory := "0" } ≠ "*" := by
    intro h
    have := congrArg (fun t : String => t.data.length) h
    simp only [hp] at this
    rcases hc with rfl | rfl <;> simp [String.data_append] at this
  have hesc : escapeChars encoding.encodePath ("chanId" ++ c ++ "-subCateId0/").data =
      ("chanId" ++ c ++ "-subCateId0/").data := by
    rcases hc with rfl | rfl <;> decide
  refine ⟨buf.data ++ escapeChars encoding.encodePath
    ((if site = "" then "" else site ++ "/") ++ "all/").data, ?_⟩
  unfold CategorySearch.URL
  rw [hbuf, String.data_append]
  simp only [NetURL.EscapedPath, hstar, if_false, escape_data, hp, escapeChars_append, hesc,
    List.append_assoc]

theorem URL_category_one_ne_two (site₁ site₂ : String) :
    CategorySearch.URL { Site := site₁, Category := "1", SubCategory := "0" } ≠
      CategorySearch.URL { Site := site₂, Category := "2", SubCategory := "0" } := by
  intro h
  obtain ⟨y₁, h₁⟩ := URL_of_category site₁ "1" (Or.inl rfl)
  obtain ⟨y₂, h₂⟩ := URL_of_category site₂ "2" (Or.inr rfl)
  rw [h, h₂] at h₁
  have := (List.append_inj' h₁ (by decide)).2
  exact absurd this (by decide)

/-- Counterexample to C2: whatever the category table, the broad builder does not give the
same URL for every order of the calls: after `SetCategory(c)` then `SetSubCategory("0")` the
category is the parent of `0`, after `SetSubCategory("0")` then `SetCategory(c)` it is `c`,
and `c` = `1` and `c` = `2` cannot both give the URL of the first order. -/
theorem setter_order_changes_URL :
    ¬ ∃ R : Registry, ∀ calls perm : List CategorySearch.Call,
      (calls.map CategorySearch.Call.setter).Nodup → calls.Perm perm →
        (CategorySearch.build R calls).URL = (CategorySearch.build R perm).URL := by
  rintro ⟨R, h⟩
  have h1 := h [CategorySearch.Call.SetCategory "1", CategorySearch.Call.SetSubCategory "0"]
    [CategorySearch.Call.SetSubCategory "0", CategorySearch.Call.SetCategory "1"]
    (by decide) (List.Perm.swap _ _ _)
  have h2 := h [CategorySearch.Call.SetCategory "2", CategorySearch.Call.SetSubCategory "0"]
    [CategorySearch.Call.SetSubCategory "0", CategorySearch.Call.SetCategory "2"]
    (by decide) (List.Perm.swap _ _ _)
  have h3 : CategorySearch.build R
      [CategorySearch.Call.SetCategory "1", CategorySearch.Call.SetSubCategory "0"] =
      CategorySearch.build R
        [CategorySearch.Call.SetCategory "2", CategorySearch.Call.SetSubCategory "0"] := rfl
  have h4 : CategorySearch.build R
      [CategorySearch.Call.SetSubCategory "0", CategorySearch.Call.SetCategory "1"] =
      { Site := R.Site "1", Category := "1", SubCategory := "0" } := rfl
  have h5 : CategorySearch.build R
      [CategorySearch.Call.SetSubCategory "0", CategorySearch.Call.SetCategory "2"] =
      { Site := R.Site "2", Category := "2", SubCategory := "0" } := rfl
  rw [h3, h2, h4, h5] at h1
  exact URL_category_one_ne_two (R.Site "1") (R.Site "2") h1.symm

theorem Call_apply_comm (R : Registry) (x y : CategorySearch.Call)
    (hxy : x.setter ≠ y.setter)
    (hcat : ∀ c v, x = CategorySearch.Call.SetCategory c →
      y = CategorySearch.Call.SetSubCategory v → c = R.Parent v)
    (hcat' : ∀ c v, y = CategorySearch.Call.SetCategory c →
      x = CategorySearch.Call.SetSubCategory v → c = R.Parent v)
    (z : CategorySearch) :
    CategorySearch.Call.apply R (CategorySearch.Call.apply R z x) y =
      CategorySearch.Call.apply R (CategorySearch.Call.apply R z y) x := by
  cases x <;> cases y <;> first
    | rfl
    | exact absurd rfl hxy
    | (rename_i c v; have := hcat c v rfl rfl; subst this; rfl)
    | (rename_i v c; have := hcat' c v rfl rfl; subst this; rfl)

/-- C2 as amended: with each setter used at most once, and `SetCategory(c)` used together
with `SetSubCategory(v)` only when `c` is the parent of `v`, every order of the calls gives
the same URL. -/
theorem URL_independent_of_setter_order (R : Registry)
    (calls perm : List CategorySearch.Call)
    (hnodup : (calls.map CategorySearch.Call.setter).Nodup)
    (hparent : ∀ c v, CategorySearch.Call.SetCategory c ∈ calls →
      CategorySearch.Call.SetSubCategory v ∈ calls → c = R.Parent v)
    (hperm : calls.Perm perm) :
    (CategorySearch.build R calls).URL = (CategorySearch.build R perm).URL := by
  have hstate : CategorySearch.build R calls = CategorySearch.build R perm := by
    unfold CategorySearch.build
    refine List.Perm.foldl_eq' hperm ?_ _
    intro x hx y hy z
    by_cases hk : x.setter = y.setter
    · have hxy : x = y := List.inj_on_of_nodup_map hnodup hx hy hk
      rw [hxy]
    · exact Call_apply_comm R x y hk
        (fun c v h1 h2 => hparent c v (h1 ▸ hx) (h2 ▸ hy))
        (fun c v h1 h2 => hparent c v (h1 ▸ hy) (h2 ▸ hx)) z
  rw [hstate]

/-- Witness of C2 as amended: page, category `P` and sub-category `8`, whose parent is `P`
in the sample table, set in two orders. -/
theorem URL_independent_of_setter_order_witness :
    (CategorySearch.build sampleRegistry
        [CategorySearch.Call.SetCategory "P", CategorySearch.Call.SetPage 2,
          CategorySearch.Call.SetSubCategory "8"]).URL =
      (CategorySearch.build sampleRegistry
        [CategorySearch.Call.SetSubCategory "8", CategorySearch.Call.SetCategory "P",
          CategorySearch.Call.SetPage 2]).URL :=
  URL_independent_of_setter_order sampleRegistry
    [CategorySearch.Call.SetCategory "P", CategorySearch.Call.SetPage 2,
      CategorySearch.Call.SetSubCategory "8"]
    [CategorySearch.Call.SetSubCategory "8", CategorySearch.Call.SetCategory "P",
      CategorySearch.Call.SetPage 2]
    (by decide)
    (by
      intro c v hc _
      simp only [List.mem_cons, List.mem_singleton, CategorySearch.Call.SetCategory.injEq,
        reduceCtorEq, or_false, false_or, List.mem_nil_iff] at hc
      exact hc)
    (by decide)

/-- Counterexample to C4: whatever the category table, on both builders `SetSubCategory("0")`
followed by `SetCategory(c)` leaves sub-category `0` with category `c`, and `c` = `1` and
`c` = `2` cannot both be the parent of `0`. -/
theorem SetCategory_breaks_parent :
    (¬ ∃ R : Registry, ∀ calls : List CategorySearch.Call,
      (CategorySearch.build R calls).SubCategory ≠ "" →
        (CategorySearch.build R calls).Category =
          R.Parent (CategorySearch.build R calls).SubCategory) ∧
    (¬ ∃ R : Registry, ∀ calls : List Search.Call,
      (Search.build R calls).SubCategory ≠ "" →
        (Search.build R calls).Category = R.Parent (Search.build R calls).SubCategory) := by
  constructor
  · rintro ⟨R, h⟩
    have h1 : "1" = R.Parent "0" :=
      h [CategorySearch.Call.SetSubCategory "0", CategorySearch.Call.SetCategory "1"]
        (show ("0" : String) ≠ "" by decide)
    have h2 : "2" = R.Parent "0" :=
      h [CategorySearch.Call.SetSubCategory "0", CategorySearch.Call.SetCategory "2"]
        (show ("0" : String) ≠ "" by decide)
    exact absurd (h1.trans h2.symm) (by decide)
  · rintro ⟨R, h⟩
    have h1 : "1" = R.Parent "0" :=
      h [Search.Call.SetSubCategory "0", Search.Call.SetCategory "1"] (show ("0" : String) ≠ "" by decide)
    have h2 : "2" = R.Parent "0" :=
      h [Search.Call.SetSubCategory "0", Search.Call.SetCategory "2"] (show ("0" : String) ≠ "" by decide)
    exact absurd (h1.trans h2.symm) (by decide)

theorem CategorySearch.parent_kept (R : Registry) (calls : List CategorySearch.Call) :
    ∀ s : CategorySearch, (s.SubCategory ≠ "" → s.Category = R.Parent s.SubCategory) →
      CategorySearch.keepsParent R s calls = true →
      (calls.foldl (CategorySearch.Call.apply R) s).SubCategory ≠ "" →
        (calls.foldl (CategorySearch.Call.apply R) s).Category =
          R.Parent (calls.foldl (CategorySearch.Call.apply R) s).SubCategory := by
  induction calls with
  | nil => intro s hs _ h; exact hs h
  | cons call rest ih =>
    intro s hs hk
    rw [List.foldl_cons]
    cases call with
    | SetCategory c =>
      simp only [CategorySearch.keepsParent, Search.keepsParent, Bool.and_eq_true,
        Bool.or_eq_true, beq_iff_eq] at hk
      obtain ⟨hc, hrest⟩ := hk
      refine ih _ ?_ hrest
      intro hsub
      rcases hc with hc | hc
      · exact absurd hc hsub
      · exact hc
    | SetSubCategory v => exact ih _ (fun _ => rfl) hk
    | SetPage v => exact ih _ hs hk
    | SetSort v => exact ih _ hs hk
    | SetState v => exact ih _ hs hk
    | SetSign v => exact ih _ hs hk
    | SetUpdate v => exact ih _ hs hk
    | SetVIP v => exact ih _ hs hk
    | SetSize v => exact ih _ hs hk
    | SetTag v => exact ih _ hs hk

theorem Search.narrow_parent_kept (R : Registry) (calls : List Search.Call) :
    ∀ s : Search, (s.SubCategory ≠ "" → s.Category = R.Parent s.SubCategory) →
      Search.keepsParent R s calls = true →
      (calls.foldl (Search.Call.apply R) s).SubCategory ≠ "" →
        (calls.foldl (Search.Call.apply R) s).Category =
          R.Parent (calls.foldl (Search.Call.apply R) s).SubCategory := by
  induction calls with
  | nil => intro s hs _ h; exact hs h
  | cons call rest ih =>
    intro s hs hk
    rw [List.foldl_cons]
    cases call with
    | SetCategory c =>
      simp only [CategorySearch.keepsParent, Search.keepsParent, Bool.and_eq_true,
        Bool.or_eq_true, beq_iff_eq] at hk
      obtain ⟨hc, hrest⟩ := hk
      refine ih _ ?_ hrest
      intro hsub
      rcases hc with hc | hc
      · exact absurd hc hsub
      · exact hc
    | SetSubCategory v => exact ih _ (fun _ => rfl) hk
    | SetPage v => exact ih _ hs hk
    | SetSort v => exact ih _ hs hk

/-- C4 as amended: in every state reached from `NewCategorySearch()` or from `NewSearch()`
by setter calls none of which is a `SetCategory(c)` made while the sub-category is set and
has another parent than `c`, a non-empty `SubCategory` has its parent in `Category`. -/
theorem parent_consistent_without_conflicting_SetCategory (R : Registry)
    (calls : List CategorySearch.Call) (calls' : List Search.Call)
    (hcalls : CategorySearch.keepsParent R NewCategorySearch calls = true)
    (hcalls' : Search.keepsParent R NewSearch calls' = true) :
    ((CategorySearch.build R calls).SubCategory ≠ "" →
      (CategorySearch.build R calls).Category =
        R.Parent (CategorySearch.build R calls).SubCategory) ∧
    ((Search.build R calls').SubCategory ≠ "" →
      (Search.build R calls').Category = R.Parent (Search.build R calls').SubCategory) :=
  ⟨CategorySearch.parent_kept R calls NewCategorySearch (fun h => absurd rfl h) hcalls,
    Search.narrow_parent_kept R calls' NewSearch (fun h => absurd rfl h) hcalls'⟩

/-- Witness of C4 as amended: a category set first and overwritten by the parent `P` of the
sub-category set after it, on both builders. -/
theorem parent_consistent_without_conflicting_SetCategory_witness :
    (CategorySearch.build sampleRegistry
        [CategorySearch.Call.SetCategory "1", CategorySearch.Call.SetSubCategory "8",
          CategorySearch.Call.SetTag "t"]).Category = "P" ∧
      (Search.build sampleRegistry
        [Search.Call.SetCategory "1", Search.Call.SetSubCategory "8",
          Search.Call.SetPage 3]).Category = "P" :=
  ⟨(parent_consistent_without_conflicting_SetCategory
      sampleRegistry
      [CategorySearch.Call.SetCategory "1", CategorySearch.Call.SetSubCategory "8",
        CategorySearch.Call.SetTag "t"]
      [Search.Call.SetCategory "1", Search.Call.SetSubCategory "8", Search.Call.SetPage 3]
      (by decide) (by decide)).1 (by decide),
    (parent_consistent_without_conflicting_SetCategory
      sampleRegistry
      [CategorySearch.Call.SetCategory "1", CategorySearch.Call.SetSubCategory "8",
        CategorySearch.Call.SetTag "t"]
      [Search.Call.SetCategory "1", Search.Call.SetSubCategory "8", Search.Call.SetPage 3]
      (by decide) (by decide)).2 (by decide)⟩

/-! ## The narrow builder -/

/-- Counterexample to C10: with all four fields set the sub-category parameter comes last,
after the sort and the page, and a `style` parameter stands between them. -/
theorem requestURL_subCateId_last :
    Search.requestURL { SortOrder := "2", Page := 2, Category := "21", SubCategory := "8" } =
      "https://www.qidian.com/all?chanId=21&orderId=2&page=2&style=2&subCateId=8" := by
  decide

theorem escapeByte_query_alnum (c : Char) (h : isAlnum c = true) :
    escapeByte encoding.encodeQueryComponent c.toNat = [c] := by
  have hof : Char.ofNat c.toNat = c := Char.ofNat_toNat c
  have h1 : isAlnumByte c.toNat = true := h
  have h2 : c.toNat ≠ 32 := by
    intro h3
    rw [h3] at h1
    exact absurd h1 (by decide)
  simp [escapeByte, shouldEscape, h1, hof, h2]

theorem QueryEscape_alnum (s : String) (h : alnum s) : QueryEscape s = s := by
  apply String.ext
  show escapeChars encoding.encodeQueryComponent s.data = s.data
  have h' : ∀ c ∈ s.data, isAlnum c = true := h
  generalize s.data = l at h'
  induction l with
  | nil => rfl
  | cons c cs ih =>
    have hc : isAlnum c = true := h' c (List.mem_cons_self _ _)
    have e1 : escapeChars encoding.encodeQueryComponent [c] = [c] := by
      simp [escapeChars, utf8EncodeChar_ascii c (isAlnum_lt c hc), escapeByte_query_alnum c hc]
    have : c :: cs = [c] ++ cs := rfl
    rw [this, escapeChars_append, e1, ih (fun d hd => h' d (List.mem_cons_of_mem _ hd))]

theorem Encode_query (s : Search) : s.query.Encode = Join s.parameters "&" := by
  have k1 : QueryEscape "style" = "style" := by decide
  have k2 : QueryEscape "page" = "page" := by decide
  have k3 : QueryEscape "orderId" = "orderId" := by decide
  have k4 : QueryEscape "chanId" = "chanId" := by decide
  have k5 : QueryEscape "subCateId" = "subCateId" := by decide
  have k6 : QueryEscape "2" = "2" := by decide
  have o1 : ¬ stringLE "style" "page" := by decide
  have o2 : ¬ stringLE "style" "orderId" := by decide
  have o3 : ¬ stringLE "style" "chanId" := by decide
  have o4 : stringLE "style" "subCateId" := by decide
  have o5 : ¬ stringLE "page" "orderId" := by decide
  have o6 : ¬ stringLE "page" "chanId" := by decide
  have o7 : stringLE "page" "subCateId" := by decide
  have o8 : ¬ stringLE "orderId" "chanId" := by decide
  have o9 : stringLE "orderId" "subCateId" := by decide
  have o10 : stringLE "chanId" "subCateId" := by decide
  have n1 : 0 < ("page=" : String).length := by decide
  have n2 : 0 < ("style" : String).length := by decide
  have n3 : 0 < ("chanId=" : String).length := by decide
  have n4 : 0 < ("orderId=" : String).length := by decide
  have n5 : 0 < ("subCateId=" : String).length := by decide
  have n6 : 0 < ("=" : String).length := by decide
  have n7 : 0 < ("2" : String).length := by decide
  have n8 : 0 < ("style=2" : String).length := by decide
  have hp : s.Page > 1 → QueryEscape (Itoa s.Page) = Itoa s.Page := fun h =>
    QueryEscape_alnum _ (Itoa_alnum _ (by omega))
  unfold Search.query Search.parameters Values.Encode
  by_cases h1 : s.Page > 1 <;> by_cases h2 : s.SortOrder = "" <;>
    by_cases h3 : s.Category = "" <;> by_cases h4 : s.SubCategory = "" <;>
    simp [h1, h2, h3, h4, Values.Set, parameter, Join, k1, k2, k3, k4, k5, k6, o1, o2, o3, o4,
      o5, o6, o7, o8, o9, o10, hp, List.insertionSort, List.orderedInsert, n1, n2, n3, n4, n5,
      n6, n7, n8] <;>
    (apply String.ext; simp [String.data_append])

theorem Join_length_ge (sep : String) (l : List String) :
    ∀ x ∈ l, x.length ≤ (Join l sep).length := by
  induction l with
  | nil => intro x hx; simp at hx
  | cons a rest ih =>
    cases rest with
    | nil =>
      intro x hx
      have : x = a := by simpa using hx
      subst this
      simp [Join]
    | cons b rest =>
      intro x hx
      simp only [Join, String.length_append]
      rcases List.mem_cons.mp hx with h | h
      · subst h; omega
      · have := ih x h
        omega

theorem Join_parameters_ne (s : Search) : Join s.parameters "&" ≠ "" := by
  intro h
  have hmem : "style=2" ∈ s.parameters := by
    simp [Search.parameters]
  have := Join_length_ge "&" s.parameters "style=2" hmem
  rw [h] at this
  exact absurd this (by decide)

/-- C10 as amended: the URL `excuteByAllPage` requests is `https://www.qidian.com/all?`
followed by the query parameters sorted by key and joined by `&`: `chanId` (omitted when the
category is empty), `orderId` (omitted when the sort is empty), `page` (omitted when the
page is at most 1), `style=2` (always), `subCateId` (omitted when the sub-category is
empty), the values query-escaped. -/
theorem Search.requestURL_sorted_by_key (s : Search) :
    s.requestURL = "https://www.qidian.com/all?" ++ Join s.parameters "&" := by
  have h1 : ("https" : String) ≠ "" := by decide
  have h2 : ("www.qidian.com" : String) ≠ "" := by decide
  have h3 : ("/all" : String) ≠ "*" := by decide
  have h4 : escape "/all" encoding.encodePath = "/all" := by decide
  have h5 : ("https" ++ ":" ++ "//" ++ "www.qidian.com" : String) ≠ "" := by decide
  have h6 := Join_parameters_ne s
  unfold Search.requestURL
  rw [Encode_query]
  simp only [NetURL.format, NetURL.EscapedPath, h3, if_false, h4, escape_host]
  simp [h1, h2, h5, h6]

/-! ## The listing parse -/

theorem cellStep_parses (R : Registry) (P : Parsers) (columns : List String) (i : Nat)
    (cell : Cell) (book : Book) (hi : i < columns.length)
    (h : cellParses P (columns.getD i "") cell) :
    cellStep R P columns i cell (book, none) =
      ((fillCell R P (columns.getD i "") cell book, none), true) := by
  obtain ⟨hcat, hcount, hdate⟩ := h
  have hi' : ¬ i ≥ columns.length := by omega
  unfold cellStep fillCell
  simp only [hi', if_false]
  generalize columns.getD i "" = label at hcat hcount hdate
  by_cases h1 : label = "类别"
  · simp [h1, hcat h1]
  by_cases h2 : label = "小说书名"
  · simp [h1, h2]
  by_cases h3 : label = "小说作者"
  · simp [h1, h2, h3]
  by_cases h4 : label = "字数"
  · simp [h1, h2, h3, h4, hcount (by simp [h4, countLabels])]
  by_cases h5 : label = "总收藏"
  · simp [h1, h2, h3, h4, h5, hcount (by simp [h5, countLabels])]
  by_cases h6 : label = "周推荐"
  · simp [h1, h2, h3, h4, h5, h6, hcount (by simp [h6, countLabels])]
  by_cases h7 : label = "月推荐"
  · simp [h1, h2, h3, h4, h5, h6, h7, hcount (by simp [h7, countLabels])]
  by_cases h8 : label = "总推荐"
  · simp [h1, h2, h3, h4, h5, h6, h7, h8, hcount (by simp [h8, countLabels])]
  by_cases h9 : label = "更新时间"
  · simp [h1, h2, h3, h4, h5, h6, h7, h8, h9, hdate (by simp [h9, dateLabels])]
  by_cases h10 : label = "完本时间"
  · simp [h1, h2, h3, h4, h5, h6, h7, h8, h9, h10, hdate (by simp [h10, dateLabels])]
  simp [h1, h2, h3, h4, h5, h6, h7, h8, h9, h10]

theorem cells_parse (R : Registry) (P : Parsers) (columns : List String) (cells : List Cell) :
    ∀ (i : Nat) (book : Book),
      (∀ lc ∈ (columns.drop i).zip cells, cellParses P lc.1 lc.2) →
      EachWithBreak (cellStep R P columns) i cells (book, none) =
        (((columns.drop i).zip cells).foldl (fun book lc => fillCell R P lc.1 lc.2 book) book,
          none) := by
  induction cells with
  | nil => intro i book _; simp [EachWithBreak]
  | cons cell rest ih =>
    intro i book h
    by_cases hi : i < columns.length
    · have hdrop : columns.drop i = columns.getD i "" :: columns.drop (i + 1) := by
        rw [List.getD_eq_getElem _ _ hi]
        exact List.drop_eq_getElem_cons hi
      rw [hdrop] at h
      have hcell : cellParses P (columns.getD i "") cell :=
        h (columns.getD i "", cell) (by simp)
      have hrest : ∀ lc ∈ (columns.drop (i + 1)).zip rest, cellParses P lc.1 lc.2 :=
        fun lc hlc => h lc (by simp [hlc])
      rw [EachWithBreak, cellStep_parses R P columns i cell book hi hcell]
      simp only [if_true]
      rw [ih (i + 1) _ hrest, hdrop]
      simp
    · have hnil : columns.drop i = [] := List.drop_eq_nil_of_le (by omega)
      have hstep : cellStep R P columns i cell (book, none) = ((book, none), false) := by
        unfold cellStep
        simp [show i ≥ columns.length by omega]
      rw [EachWithBreak, hstep, hnil]
      simp

theorem rowStep_parses (R : Registry) (P : Parsers) (columns : List String) (i : Nat)
    (row : List Cell) (ret : List Book)
    (h : ∀ lc ∈ columns.zip row, cellParses P lc.1 lc.2) :
    rowStep R P columns i row (ret, none) =
      ((ret ++ [rowRecord R P columns row], none), true) := by
  have := cells_parse R P columns row 0 {} (by simpa using h)
  unfold rowStep
  simp only [this]
  simp [rowRecord]

theorem rows_parse (R : Registry) (P : Parsers) (columns : List String)
    (rows : List (List Cell)) :
    ∀ (i : Nat) (ret : List Book),
      (∀ row ∈ rows, ∀ lc ∈ columns.zip row, cellParses P lc.1 lc.2) →
      EachWithBreak (rowStep R P columns) i rows (ret, none) =
        (ret ++ rows.map (rowRecord R P columns), none) := by
  induction rows with
  | nil => intro i ret _; simp [EachWithBreak]
  | cons row rest ih =>
    intro i ret h
    rw [EachWithBreak, rowStep_parses R P columns i row ret (h row (List.mem_cons_self _ _))]
    simp only [if_true]
    rw [ih (i + 1) _ (fun r hr => h r (List.mem_cons_of_mem _ hr))]
    simp

/-- C5: when every data row has as many cells as the header has labels and every count,
date and category cell parses, the listing parse returns no error and one record per data
row, in row order, the record of a row holding each cell in the field named by the label at
the same position of the header. -/
theorem parseListing_complete_rows (R : Registry) (P : Parsers) (table : Table)
    (hlen : ∀ row ∈ table.rows, row.length = table.columns.length)
    (hparse : ∀ row ∈ table.rows, ∀ lc ∈ table.columns.zip row, cellParses P lc.1 lc.2) :
    (parseListing R P table).2 = none ∧
      (parseListing R P table).1.length = table.rows.length ∧
      (parseListing R P table).1 = table.rows.map (rowRecord R P table.columns) ∧
      ∀ row ∈ table.rows, (table.columns.zip row).length = table.columns.length := by
  have h := rows_parse R P table.columns table.rows 0 [] hparse
  unfold parseListing
  rw [h]
  refine ⟨rfl, by simp, by simp, ?_⟩
  intro row hrow
  simp [List.length_zip, hlen row hrow]

/-- Witness of C5: the header `小说书名`, `字数` with the one row `Example Title`, `3000`
gives no error and the one record with that title and the parsed count. -/
theorem parseListing_complete_rows_witness :
    (parseListing sampleRegistry sampleParsers
        ⟨["小说书名", "字数"], [[⟨"Example Title", "1"⟩, ⟨"3000", ""⟩]]⟩).2 = none ∧
      (parseListing sampleRegistry sampleParsers
        ⟨["小说书名", "字数"], [[⟨"Example Title", "1"⟩, ⟨"3000", ""⟩]]⟩).1 =
        [{ ID := "1", Title := "Example Title", WordCount := 3000 }] :=
  have h := parseListing_complete_rows sampleRegistry sampleParsers
    ⟨["小说书名", "字数"], [[⟨"Example Title", "1"⟩, ⟨"3000", ""⟩]]⟩
    (by decide)
    (by
      intro row hrow lc hlc
      simp only [List.mem_singleton] at hrow
      subst hrow
      simp only [List.zip_cons_cons, List.zip_nil_right, List.mem_cons, List.mem_singleton,
        List.mem_nil_iff, or_false] at hlc
      rcases hlc with rfl | rfl <;> (refine ⟨?_, ?_, ?_⟩ <;> decide))
  ⟨h.1, h.2.2.1.trans (by decide)⟩

/-- Counterexample to C6: whatever the category table and the parsers, the one-cell row
`Example Title` under the header `小说书名`, `字数` gives no error and a record with the title
and the zero word count. -/
theorem short_row_is_accepted :
    ¬ ∃ (R : Registry) (P : Parsers),
      parseListing R P ⟨["小说书名", "字数"], [[⟨"Example Title", "1"⟩]]⟩ ≠
        ([{ ID := "1", Title := "Example Title", WordCount := 0 }], none) := by
  rintro ⟨R, P, h⟩
  exact h rfl

theorem zip_take_length {α β : Type} (l : List α) (r : List β) :
    (l.take r.length).zip r = l.zip r := by
  induction l generalizing r with
  | nil => simp
  | cons a l ih =>
    cases r with
    | nil => simp
    | cons b r => simp [ih]

theorem zip_map_snd {α β : Type} (g : α → β) (l : List α) :
    ∀ p ∈ l.zip (l.map g), p.2 = g p.1 := by
  induction l with
  | nil => intro p hp; simp at hp
  | cons a l ih =>
    intro p hp
    simp only [List.map_cons, List.zip_cons_cons, List.mem_cons] at hp
    rcases hp with rfl | hp
    · rfl
    · exact ih p hp

theorem mem_zip_map {α β : Type} (g : α → β) (l : List α) (a : α) (ha : a ∈ l) :
    (a, g a) ∈ l.zip (l.map g) := by
  induction l with
  | nil => simp at ha
  | cons x l ih =>
    simp only [List.map_cons, List.zip_cons_cons, List.mem_cons]
    rcases List.mem_cons.mp ha with rfl | h
    · exact Or.inl rfl
    · exact Or.inr (ih h)

theorem foldl_keeps_of_mem {α β : Type} (f : Book → α) (g : Book → β → Book) (l : List β) :
    ∀ b : Book, (∀ x ∈ l, ∀ b, f (g b x) = f b) → f (l.foldl g b) = f b := by
  induction l with
  | nil => intro b _; rfl
  | cons x l ih =>
    intro b h
    rw [List.foldl_cons, ih _ (fun y hy => h y (List.mem_cons_of_mem _ hy)),
      h x (List.mem_cons_self _ _)]

theorem rowRecord_keeps_zero {α : Type} (R : Registry) (P : Parsers) (columns : List String)
    (row : List Cell) (f : Book → α)
    (hf : ∀ label ∈ columns.take row.length, ∀ (cell : Cell) (book : Book),
      f (fillCell R P label cell book) = f book) :
    f (rowRecord R P (columns.take row.length) row) = f {} := by
  unfold rowRecord
  apply foldl_keeps_of_mem
  intro lc hlc book
  exact hf lc.1 (List.of_mem_zip hlc).1 lc.2 book

/-- C6 as amended: a row with fewer cells than the header has labels does not abort the
listing parse.  When every cell of the table parses, the parse returns no error and exactly
one record per data row, in row order; the record of every row, short rows included, is
built from the cells the row has, each stored under the label at the same position, the
labels after the last cell of the row taking no part; a short row is paired with its record
in the result; and every field that none of the labels over the cells of a row stores into
has its zero value in the record of that row. -/
theorem parseListing_short_rows (R : Registry) (P : Parsers) (table : Table)
    (hshort : ∃ row ∈ table.rows, row.length < table.columns.length)
    (hparse : ∀ row ∈ table.rows, ∀ lc ∈ table.columns.zip row, cellParses P lc.1 lc.2) :
    (parseListing R P table).2 = none ∧
      (parseListing R P table).1.length = table.rows.length ∧
      (parseListing R P table).1 =
        table.rows.map (fun row => rowRecord R P (table.columns.take row.length) row) ∧
      (∃ rb ∈ table.rows.zip (parseListing R P table).1,
        rb.1.length < table.columns.length ∧
          rb.2 = rowRecord R P (table.columns.take rb.1.length) rb.1) ∧
      ∀ rb ∈ table.rows.zip (parseListing R P table).1, ∀ (α : Type) (f : Book → α),
        (∀ label ∈ table.columns.take rb.1.length, ∀ (cell : Cell) (book : Book),
          f (fillCell R P label cell book) = f book) →
        f rb.2 = f {} := by
  have h := rows_parse R P table.columns table.rows 0 [] hparse
  have hmap : table.rows.map (rowRecord R P table.columns) =
      table.rows.map (fun row => rowRecord R P (table.columns.take row.length) row) := by
    apply List.map_congr_left
    intro row _
    simp [rowRecord, zip_take_length]
  have hret : (parseListing R P table).1 =
      table.rows.map (fun row => rowRecord R P (table.columns.take row.length) row) := by
    unfold parseListing
    rw [h, ← hmap]
    simp
  have herr : (parseListing R P table).2 = none := by
    unfold parseListing
    rw [h]
  obtain ⟨row, hrow, hlt⟩ := hshort
  refine ⟨herr, by rw [hret, List.length_map], hret, ?_, ?_⟩
  · refine ⟨(row, rowRecord R P (table.columns.take row.length) row), ?_, hlt, rfl⟩
    rw [hret]
    exact mem_zip_map _ table.rows row hrow
  · intro rb hrb α f hf
    rw [hret] at hrb
    rw [zip_map_snd _ table.rows rb hrb]
    exact rowRecord_keeps_zero R P table.columns rb.1 f hf

/-- Witness of C6 as amended: the one-cell row `Example Title` under the header `小说书名`,
`字数` gives no error and the one record with the title and the zero word count. -/
theorem parseListing_short_rows_witness :
    (parseListing sampleRegistry sampleParsers
        ⟨["小说书名", "字数"], [[⟨"Example Title", "1"⟩]]⟩).2 = none ∧
      (parseListing sampleRegistry sampleParsers
        ⟨["小说书名", "字数"], [[⟨"Example Title", "1"⟩]]⟩).1 =
        [{ ID := "1", Title := "Example Title", WordCount := 0 }] :=
  have h := parseListing_short_rows sampleRegistry sampleParsers
    ⟨["小说书名", "字数"], [[⟨"Example Title", "1"⟩]]⟩
    ⟨[⟨"Example Title", "1"⟩], by simp, by decide⟩
    (by
      intro row hrow lc hlc
      simp only [List.mem_singleton] at hrow
      subst hrow
      simp only [List.zip_cons_cons, List.zip_nil_right, List.mem_singleton] at hlc
      subst hlc
      decide)
  ⟨h.1, h.2.2.1.trans (by decide)⟩

theorem cellStep_fails (R : Registry) (P : Parsers) (columns : List String) (i : Nat)
    (cell : Cell) (book : Book) (hi : i < columns.length)
    (h : cellFails P (columns.getD i "") cell) :
    (cellStep R P columns i cell (book, none)).2 = false ∧
      (cellStep R P columns i cell (book, none)).1.2 ≠ none := by
  have hi' : ¬ i ≥ columns.length := by omega
  unfold cellStep
  simp only [hi', if_false]
  generalize columns.getD i "" = label at h
  rcases h with ⟨hl, hs⟩ | ⟨hl, hp⟩ | ⟨hl, hp⟩
  · simp [hl, hs]
  · simp only [countLabels, List.mem_cons, List.mem_singleton, List.mem_nil_iff,
      or_false] at hl
    rcases hl with rfl | rfl | rfl | rfl | rfl <;> simp [hp, Option.isSome_iff_ne_none]
  · simp only [dateLabels, List.mem_cons, List.mem_singleton, List.mem_nil_iff,
      or_false] at hl
    rcases hl with rfl | rfl <;> simp [hp, Option.isSome_iff_ne_none]

theorem cells_parse_then (R : Registry) (P : Parsers) (columns : List String)
    (good tail : List Cell) :
    ∀ (i : Nat) (book : Book), i + good.length ≤ columns.length →
      (∀ lc ∈ (columns.drop i).zip good, cellParses P lc.1 lc.2) →
      EachWithBreak (cellStep R P columns) i (good ++ tail) (book, none) =
        EachWithBreak (cellStep R P columns) (i + good.length) tail
          (((columns.drop i).zip good).foldl (fun book lc => fillCell R P lc.1 lc.2 book) book,
            none) := by
  induction good with
  | nil => intro i book _ _; simp
  | cons cell rest ih =>
    intro i book hle h
    have hi : i < columns.length := by
      simp only [List.length_cons] at hle
      omega
    have hdrop : columns.drop i = columns.getD i "" :: columns.drop (i + 1) := by
      rw [List.getD_eq_getElem _ _ hi]
      exact List.drop_eq_getElem_cons hi
    rw [hdrop] at h
    have hcell : cellParses P (columns.getD i "") cell :=
      h (columns.getD i "", cell) (by simp)
    have hrest : ∀ lc ∈ (columns.drop (i + 1)).zip rest, cellParses P lc.1 lc.2 :=
      fun lc hlc => h lc (by simp [hlc])
    rw [List.cons_append, EachWithBreak, cellStep_parses R P columns i cell book hi hcell]
    simp only [if_true]
    rw [ih (i + 1) _ (by simp only [List.length_cons] at hle; omega) hrest, hdrop]
    simp only [List.zip_cons_cons, List.foldl_cons, List.length_cons]
    rw [show i + 1 + rest.length = i + (rest.length + 1) by omega]

theorem rowStep_fails (R : Registry) (P : Parsers) (columns : List String) (i : Nat)
    (good : List Cell) (bad : Cell) (rest : List Cell) (ret : List Book)
    (hgood : ∀ lc ∈ columns.zip good, cellParses P lc.1 lc.2)
    (hpos : good.length < columns.length)
    (hbad : cellFails P (columns.getD good.length "") bad) :
    (rowStep R P columns i (good ++ bad :: rest) (ret, none)).2 = false ∧
      (rowStep R P columns i (good ++ bad :: rest) (ret, none)).1.1 = ret ∧
      (rowStep R P columns i (good ++ bad :: rest) (ret, none)).1.2 ≠ none := by
  have h1 := cells_parse_then R P columns good (bad :: rest) 0 {} (by omega)
    (by simpa using hgood)
  simp only [Nat.zero_add] at h1
  have h2 := cellStep_fails R P columns good.length bad
    ((columns.zip good).foldl (fun book lc => fillCell R P lc.1 lc.2 book) {}) hpos hbad
  have h3 : (EachWithBreak (cellStep R P columns) 0 (good ++ bad :: rest) ({}, none)).2 ≠
      none := by
    rw [h1, EachWithBreak]
    simp only [List.drop_zero, h2.1]
    exact h2.2
  unfold rowStep
  simp only [h3, ne_eq, not_false_eq_true, if_true, and_self]

theorem rows_parse_then (R : Registry) (P : Parsers) (columns : List String)
    (before tail : List (List Cell)) :
    ∀ (i : Nat) (ret : List Book),
      (∀ row ∈ before, ∀ lc ∈ columns.zip row, cellParses P lc.1 lc.2) →
      EachWithBreak (rowStep R P columns) i (before ++ tail) (ret, none) =
        EachWithBreak (rowStep R P columns) (i + before.length) tail
          (ret ++ before.map (rowRecord R P columns), none) := by
  induction before with
  | nil => intro i ret _; simp
  | cons row rest ih =>
    intro i ret h
    rw [List.cons_append, EachWithBreak,
      rowStep_parses R P columns i row ret (h row (List.mem_cons_self _ _))]
    simp only [if_true]
    rw [ih (i + 1) _ (fun r hr => h r (List.mem_cons_of_mem _ hr))]
    simp only [List.map_cons, List.append_assoc, List.singleton_append, List.length_cons]
    rw [show i + 1 + rest.length = i + (rest.length + 1) by omega]

/-- C7, what the code does: when the rows `before` parse and the next row fails at the cell
`bad` (the cells `good` before it parse), the listing parse returns a non-nil error and
processes no row of `after`, but the sequence it returns with the error is not empty: it
holds the records of the rows `before`. -/
theorem parseListing_error_keeps_earlier_rows (R : Registry) (P : Parsers)
    (columns : List String) (before after : List (List Cell)) (good : List Cell) (bad : Cell)
    (rest : List Cell)
    (hbefore : ∀ row ∈ before, ∀ lc ∈ columns.zip row, cellParses P lc.1 lc.2)
    (hgood : ∀ lc ∈ columns.zip good, cellParses P lc.1 lc.2)
    (hpos : good.length < columns.length)
    (hbad : cellFails P (columns.getD good.length "") bad) :
    (parseListing R P ⟨columns, before ++ (good ++ bad :: rest) :: after⟩).2 ≠ none ∧
      (parseListing R P ⟨columns, before ++ (good ++ bad :: rest) :: after⟩).1 =
        before.map (rowRecord R P columns) := by
  have h := rowStep_fails R P columns (0 + before.length) good bad rest
    ([] ++ before.map (rowRecord R P columns)) hgood hpos hbad
  unfold parseListing
  simp only
  rw [rows_parse_then R P columns before _ 0 [] hbefore, EachWithBreak]
  simp only [h.1]
  exact ⟨h.2.2, by simpa using h.2.1⟩

/-- C7 at a failing input: under the header `类别`, the second of three rows does not split
on `·`; the parse returns the error together with the record of the first row. -/
theorem parseListing_error_keeps_earlier_rows_witness :
    parseListing sampleRegistry sampleParsers
        ⟨["类别"], [[⟨"「玄幻·东方玄幻」", ""⟩], [⟨"玄幻", ""⟩], [⟨"「都市·都市生活」", ""⟩]]⟩ =
      ([{ Category := "玄幻", SubCategory := "东方玄幻" }], some "unexpected category format") :=
  have h := parseListing_error_keeps_earlier_rows sampleRegistry sampleParsers ["类别"]
    [[⟨"「玄幻·东方玄幻」", ""⟩]] [[⟨"「都市·都市生活」", ""⟩]] [] ⟨"玄幻", ""⟩ []
    (by
      intro row hrow lc hlc
      simp only [List.mem_singleton] at hrow
      subst hrow
      simp only [List.zip_cons_cons, List.zip_nil_right, List.mem_singleton] at hlc
      subst hlc
      refine ⟨?_, ?_, ?_⟩ <;> decide)
    (by simp) (by decide) (Or.inl (by decide))
  Prod.ext (h.2.trans (by decide)) (by decide)

/-! ## `Fetch` -/

theorem extract_missing_tag (E : Env) (P : Parsers) (doc : Page) (b : Book)
    (h : doc.bookName = none ∨ doc.updateTime = none ∨ doc.description = none) :
    (extract E P doc b).2 ≠ none := by
  unfold extract
  cases hb : doc.bookName with
  | none => simp
  | some name =>
    cases hu : doc.updateTime with
    | none => simp
    | some text =>
      by_cases ht : (P.ParseTime text).2 = none
      · have hd : doc.description = none := by
          rcases h with h | h | h
          · rw [hb] at h; cases h
          · rw [hu] at h; cases h
          · exact h
        simp [ht, hd]
      · simp [ht]

/-- C9: for a book with a non-empty id, when the fetched page lacks the `og:novel:book_name`,
the `og:novel:update_time` or the `og:description` meta tag, `Fetch` returns an error,
whatever else the page holds. -/
theorem Fetch_missing_required_tag (E : Env) (P : Parsers) (b : Book) (body : String)
    (doc : Page) (hid : b.ID ≠ "") (hget : E.GetHTML b.URL = Except.ok body)
    (hdoc : E.NewDocumentFromReader body = Except.ok doc)
    (hmissing : doc.bookName = none ∨ doc.updateTime = none ∨ doc.description = none) :
    (Fetch E P b).2 ≠ none := by
  have h := extract_missing_tag E P doc b hmissing
  unfold Fetch
  simp only [hid, if_false, hget, hdoc]
  simpa using h

/-- Witness of C9: a page with a title and an update time but no description. -/
theorem Fetch_missing_required_tag_witness :
    (Fetch (sampleEnv { bookName := some "Title", updateTime := some "2020-01-01" })
      sampleParsers { ID := "1" }).2 ≠ none :=
  Fetch_missing_required_tag
    (sampleEnv { bookName := some "Title", updateTime := some "2020-01-01" })
    sampleParsers { ID := "1" } ""
    { bookName := some "Title", updateTime := some "2020-01-01" }
    (by decide) rfl rfl (Or.inr (Or.inr rfl))

/-- Counterexample to C8: the page has the `og:novel:book_name` tag and lacks the
`og:novel:update_time` tag; `Fetch` returns an error and the title of the record is
overwritten.  No parser and no pattern is reached on this path. -/
theorem Fetch_error_overwrites_title :
    (Fetch (sampleEnv { bookName := some "New Title" }) sampleParsers
        { ID := "1", Title := "Old Title" }).2 ≠ none ∧
      (Fetch (sampleEnv { bookName := some "New Title" }) sampleParsers
        { ID := "1", Title := "Old Title" }).1 = { ID := "1", Title := "New Title" } := by
  decide

theorem foldl_keeps {α β : Type} (f : Book → α) (g : Book → β → Book)
    (h : ∀ b x, f (g b x) = f b) (l : List β) (b : Book) : f (l.foldl g b) = f b := by
  induction l generalizing b with
  | nil => rfl
  | cons x l ih => rw [List.foldl_cons, ih, h]

theorem authorStep_keeps {α : Type} (f : Book → α)
    (hf : ∀ (b : Book) (a : Author), f { b with Author := a } = f b)
    (E : Env) (doc : Page) (b : Book) : f (authorStep E doc b) = f b := by
  unfold authorStep
  simp only
  split
  · split
    · rw [hf, hf]
    · rw [hf]
  · rw [hf]

theorem categoriesStep_keeps {α : Type} (f : Book → α)
    (hf : ∀ (b : Book) (c s : String), f { b with Category := c, SubCategory := s } = f b)
    (E : Env) (doc : Page) (b : Book) : f (categoriesStep E doc b) = f b := by
  unfold categoriesStep
  apply foldl_keeps
  intro b href
  cases href with
  | none => rfl
  | some href =>
    apply foldl_keeps
    intro b m
    exact hf b _ _

theorem tagsStep_keeps {α : Type} (f : Book → α)
    (hf : ∀ (b : Book) (t : List String), f { b with Tags := t } = f b)
    (doc : Page) (b : Book) : f (tagsStep doc b) = f b := by
  unfold tagsStep
  simp only
  rw [foldl_keeps f _ (fun b t => hf b _), hf]

theorem EachWithBreak_keeps {α β : Type} (f : Book → α)
    (step : Nat → β → Book × Option Error → (Book × Option Error) × Bool)
    (h : ∀ i x st, f (step i x st).1.1 = f st.1) (l : List β) :
    ∀ (i : Nat) (st : Book × Option Error), f (EachWithBreak step i l st).1 = f st.1 := by
  induction l with
  | nil => intro i st; rfl
  | cons x l ih =>
    intro i st
    rw [EachWithBreak]
    split
    · rw [ih, h]
    · rw [h]

theorem countStep_unextracted (P : Parsers) (i : Nat) (c : String) (st : Book × Option Error) :
    unextracted (countStep P i c st).1.1 = unextracted st.1 := by
  unfold countStep
  simp only
  split
  · rfl
  · split
    · rfl
    · split <;> rfl

theorem extract_unextracted (E : Env) (P : Parsers) (doc : Page) (b : Book) :
    unextracted (extract E P doc b).1 = unextracted b := by
  have hpre : ∀ b₀ : Book, unextracted (tagsStep doc
      { categoriesStep E doc (authorStep E doc b₀) with
        CoverURL := E.AbsoluteURL doc.ogImage }) = unextracted b₀ := fun b₀ =>
    (tagsStep_keeps unextracted (fun _ _ => rfl) doc _).trans
      ((categoriesStep_keeps unextracted (fun _ _ _ => rfl) E doc _).trans
        (authorStep_keeps unextracted (fun _ _ => rfl) E doc b₀))
  unfold extract
  simp only
  split
  · rfl
  · split
    · rfl
    · split
      · rfl
      · split
        · exact hpre _
        · split
          · exact (EachWithBreak_keeps unextracted _ (countStep_unextracted P) _ _ _).trans
              (hpre _)
          · split
            · split
              · exact (EachWithBreak_keeps unextracted _ (countStep_unextracted P) _ _ _).trans
                  (hpre _)
              · exact (EachWithBreak_keeps unextracted _ (countStep_unextracted P) _ _ _).trans
                  (hpre _)
            · exact (EachWithBreak_keeps unextracted _ (countStep_unextracted P) _ _ _).trans
                (hpre _)

theorem Fetch_record (E : Env) (P : Parsers) (b : Book) (body : String) (doc : Page)
    (hid : b.ID ≠ "") (hget : E.GetHTML b.URL = Except.ok body)
    (hdoc : E.NewDocumentFromReader body = Except.ok doc) :
    (Fetch E P b).1 = (extract E P doc b).1 := by
  unfold Fetch
  simp only [hid, if_false, hget, hdoc]

theorem Fetch_unextracted (E : Env) (P : Parsers) (b : Book) :
    unextracted (Fetch E P b).1 = unextracted b := by
  unfold Fetch
  simp only
  split
  · rfl
  · split
    · rfl
    · split
      · rfl
      · exact extract_unextracted E P _ b

theorem extract_title_only (E : Env) (P : Parsers) (doc : Page) (b : Book)
    (h : doc.bookName = none ∨ doc.updateTime = none) :
    (extract E P doc b).1 = { b with Title := doc.bookName.getD "" } := by
  unfold extract
  cases hb : doc.bookName with
  | none => simp
  | some name =>
    have hu : doc.updateTime = none := by
      rcases h with h | h
      · rw [hb] at h; cases h
      · exact h
    simp [hu]

theorem extract_title_and_time (E : Env) (P : Parsers) (doc : Page) (b : Book) (text : String)
    (hb : doc.bookName ≠ none) (hu : doc.updateTime = some text)
    (ht : (P.ParseTime text).2 ≠ none) :
    (extract E P doc b).1 =
      { b with Title := doc.bookName.getD "", LastUpdated := (P.ParseTime text).1 } := by
  unfold extract
  cases hn : doc.bookName with
  | none => exact absurd hn hb
  | some name => simp [hu, ht]

theorem extract_counters (E : Env) (P : Parsers) (doc : Page) (b : Book)
    (hd : doc.description = none) : counters (extract E P doc b).1 = counters b := by
  have hpre : ∀ b₀ : Book, counters (tagsStep doc
      { categoriesStep E doc (authorStep E doc b₀) with
        CoverURL := E.AbsoluteURL doc.ogImage }) = counters b₀ := fun b₀ =>
    (tagsStep_keeps counters (fun _ _ => rfl) doc _).trans
      ((categoriesStep_keeps counters (fun _ _ _ => rfl) E doc _).trans
        (authorStep_keeps counters (fun _ _ => rfl) E doc b₀))
  unfold extract
  simp only [hd, Option.isNone_none, if_true]
  split
  · rfl
  · split
    · rfl
    · split
      · rfl
      · exact hpre _

/-- C8 as amended: when `Fetch` fails on a book with a non-empty id, the fields the steps
reached so far are overwritten and the others keep their value.  `ID`, `Site`, `Finished`,
`BookmarkCount` and `MonthRecommendCount` are never changed; a failure to get or to parse
the page changes nothing; a missing `og:novel:book_name` or `og:novel:update_time` tag
changes only `Title`; an update time that does not parse changes only `Title` and
`LastUpdated`; a missing `og:description` tag leaves the four extracted counters as they
were. -/
theorem Fetch_error_keeps_unreached_fields (E : Env) (P : Parsers) (b : Book)
    (hid : b.ID ≠ "") (_herr : (Fetch E P b).2 ≠ none) :
    unextracted (Fetch E P b).1 = unextracted b ∧
      (∀ e, E.GetHTML b.URL = Except.error e → (Fetch E P b).1 = b) ∧
      (∀ body e, E.GetHTML b.URL = Except.ok body →
        E.NewDocumentFromReader body = Except.error e → (Fetch E P b).1 = b) ∧
      (∀ body doc, E.GetHTML b.URL = Except.ok body →
        E.NewDocumentFromReader body = Except.ok doc →
          ((doc.bookName = none ∨ doc.updateTime = none) →
            (Fetch E P b).1 = { b with Title := doc.bookName.getD "" }) ∧
          (∀ text, doc.bookName ≠ none → doc.updateTime = some text →
            (P.ParseTime text).2 ≠ none →
            (Fetch E P b).1 =
              { b with Title := doc.bookName.getD "", LastUpdated := (P.ParseTime text).1 }) ∧
          (doc.description = none → counters (Fetch E P b).1 = counters b)) := by
  refine ⟨Fetch_unextracted E P b, ?_, ?_, ?_⟩
  · intro e hget
    unfold Fetch
    simp only [hid, if_false, hget]
  · intro body e hget hdoc
    unfold Fetch
    simp only [hid, if_false, hget, hdoc]
  · intro body doc hget hdoc
    rw [Fetch_record E P b body doc hid hget hdoc]
    exact ⟨extract_title_only E P doc b, extract_title_and_time E P doc b,
      extract_counters E P doc b⟩

/-- Witness of C8 as amended: the page with a title and no update time, fetched into a
record that has a title, a summary and a word count. -/
theorem Fetch_error_keeps_unreached_fields_witness :
    (Fetch (sampleEnv { bookName := some "New Title" }) sampleParsers
        { ID := "1", Title := "Old Title", Summary := "s", WordCount := 7 }).1 =
      { ID := "1", Title := "New Title", Summary := "s", WordCount := 7 } :=
  ((Fetch_error_keeps_unreached_fields (sampleEnv { bookName := some "New Title" })
    sampleParsers { ID := "1", Title := "Old Title", Summary := "s", WordCount := 7 }
    (by decide) (by decide)).2.2.2 "" { bookName := some "New Title" } rfl rfl).1
    (Or.inr rfl)

end Qidian
